import Mathlib

/-! Verification development for the SnapJS-AdminServer admin module.

The definitions below are a shallow embedding of src/src/admin/admin.helper.js
and src/src/admin/admin.controller.js.  Strings are modelled as Lean strings
(lists of characters); JavaScript "undefined" values produced by the CSV
tokenizer are modelled with Option.  The helper file contains two versions of
convertToCsv: the first (lines 8-47, namespace HelperV1) applies two global
replacements to the whole CSV text and has no date branch; the second
(lines 280-323, namespace HelperV2) formats dates with moment.utc and applies
the replacements only to JSON-stringified object cells. -/

namespace SnapAdmin

/-! ## CSV tokenizer: csvToArray (admin.helper.js lines 54-122)

The source tokenizes with the regular expression
(DELIM|\r?\n|\r|^)(?:"([^"]*(?:""[^"]*)*)"|([^"DELIM\r\n]*)) run in a
while (exec) loop, with DELIM the field delimiter (always the default comma in
this repository).  The embedding reproduces the exec loop: alternatives are
tried in order, the quoted-field group is greedy with backtracking, exec scans
forward to the first position where the pattern matches, and a zero-length
match leaves lastIndex unchanged, which makes the JavaScript loop repeat the
same match forever.  A run that would spin forever is modelled as none. -/

/-- Separator kind recognized by the first group of the pattern: the field
delimiter, a line break, or the start-of-input anchor. -/
inductive Sep where
  | comma
  | newline
  | start
deriving DecidableEq, Repr

/-- Characters that can begin a separator alternative at a non-initial
position (the field delimiter or a line-break character). -/
def sepChar (c : Char) : Bool := c = ',' || c = '\r' || c = '\n'

/-- Characters allowed inside the unquoted-field alternative [^",\r\n]*. -/
def fieldChar (c : Char) : Bool := !(c = '"' || sepChar c)

/-- Greedy match of the quoted-field group ([^"]*(?:""[^"]*)*) followed by the
closing quote, entered after the opening quote has been consumed.  Returns the
captured group (escaped quotes still doubled) and the input remaining after
the closing quote; none when no closing quote completes the match. -/
def quotedRest : List Char → Option (List Char × List Char)
  | [] => none
  | c :: rest =>
    if c = '"' then
      match rest with
      | c2 :: rest3 =>
        if c2 = '"' then
          match quotedRest rest3 with
          | some (content, rem) => some ('"' :: '"' :: content, rem)
          | none => some ([], rest)
        else some ([], rest)
      | [] => some ([], rest)
    else
      match quotedRest rest with
      | some (content, rem) => some (c :: content, rem)
      | none => none

/-- Replacement of every doubled quote by a single quote, applied by the
source to a captured quoted field. -/
def unescapeQuotes : List Char → List Char
  | [] => []
  | [c] => [c]
  | c :: c2 :: r =>
    if c = '"' then
      if c2 = '"' then '"' :: unescapeQuotes r
      else c :: unescapeQuotes (c2 :: r)
    else c :: unescapeQuotes (c2 :: r)

/-- Match of the first group: the alternatives are tried in the order of the
pattern, and the start-of-input anchor only applies at position zero. -/
def matchSep (cs : List Char) (atStart : Bool) : Option (Sep × List Char) :=
  match cs with
  | c :: r =>
    if c = ',' then some (.comma, r)
    else if c = '\r' then
      match r with
      | c2 :: r2 => if c2 = '\n' then some (.newline, r2) else some (.newline, r)
      | [] => some (.newline, r)
    else if c = '\n' then some (.newline, r)
    else if atStart then some (.start, cs) else none
  | [] => if atStart then some (.start, cs) else none

/-- Match of the field part of the pattern.  A quoted field whose captured
group is empty is falsy in JavaScript, so the source then reads the
non-participating third group and pushes undefined, modelled as none.  When
the quoted alternative fails, the unquoted alternative matches the empty
string in front of the stray quote. -/
def matchField (cs : List Char) : Option String × List Char :=
  match cs with
  | c :: rest =>
    if c = '"' then
      match quotedRest rest with
      | some (content, rem) =>
        if content.isEmpty then (none, rem)
        else (some (String.mk (unescapeQuotes content)), rem)
      | none => (some "", cs)
    else (some (String.mk (cs.takeWhile fieldChar)), cs.dropWhile fieldChar)
  | [] => (some (String.mk (cs.takeWhile fieldChar)), cs.dropWhile fieldChar)

/-- One call of objPattern.exec: try the pattern at the current position; if
the separator group cannot match there (and the anchor is unavailable), exec
scans forward to the next position at which the pattern matches, which is the
next separator character; the skipped characters are discarded. -/
def execMatch (cs : List Char) (atStart : Bool) :
    Option (Sep × Option String × List Char) :=
  match matchSep cs atStart with
  | some (sep, rest1) =>
    let fv := matchField rest1
    some (sep, fv.1, fv.2)
  | none =>
    let skipped := cs.dropWhile (fun c => !sepChar c)
    match matchSep skipped false with
    | some (sep, rest1) =>
      let fv := matchField rest1
      some (sep, fv.1, fv.2)
    | none => none

/-- arrData[arrData.length - 1].push(value). -/
def pushLast (acc : List (List (Option String))) (v : Option String) :
    List (List (Option String)) :=
  match acc with
  | [] => [[v]]
  | [row] => [row ++ [v]]
  | row :: rest => row :: pushLast rest v

/-- The while (exec) loop of csvToArray.  A matched line-break separator opens
a new row; the matched value is pushed onto the last row.  A zero-length match
does not advance lastIndex, so the JavaScript loop repeats it forever: that
case (and fuel exhaustion, which is unreachable from csvToArray for
terminating runs) is modelled as none.  Every other iteration consumes at
least one character. -/
def csvLoop : Nat → List Char → Bool → List (List (Option String)) →
    Option (List (List (Option String)))
  | 0, _, _, _ => none
  | fuel + 1, cs, atStart, acc =>
    match execMatch cs atStart with
    | none => some acc
    | some (sep, v, rest) =>
      let acc2 := pushLast (if sep = Sep.newline then acc ++ [[]] else acc) v
      if rest.length < cs.length then
        csvLoop fuel rest false acc2
      else
        none

/-- csvToArray (admin.helper.js lines 54-122) at the default comma delimiter.
The result is none exactly when the JavaScript loop never terminates. -/
def csvToArray (strData : String) : Option (List (List (Option String))) :=
  csvLoop (strData.length + 1) strData.data true [[]]

/-! ## CSV encoders: convertToCsv (admin.helper.js lines 8-47 and 280-323) -/

/-- Runtime value stored in a result document's field.  Structured objects and
arrays carry the text that JSON.stringify produces for them; dates carry their
epoch-millisecond timestamp. -/
inductive CellValue where
  | undef
  | null
  | str (s : String)
  | num (n : Int)
  | boolean (b : Bool)
  | obj (json : String)
  | date (ms : Int)
deriving DecidableEq, Repr

/-- JavaScript String(v) coercion for the values the encoder's final branch
receives.  Dates reach that branch only in the first helper version; their
JavaScript rendering is locale- and timezone-dependent, no theorem relies on
the placeholder chosen here, and undef/null never reach it because the first
branch of the encoder catches them. -/
def jsString : CellValue → String
  | .undef => "undefined"
  | .null => "null"
  | .str s => s
  | .num n => toString n
  | .boolean true => "true"
  | .boolean false => "false"
  | .obj j => j
  | .date ms => "Date(" ++ toString ms ++ ")"

/-- Replacement of every double quote by a doubled double quote, the
.replace(quote, two quotes) applied to a stringified cell. -/
def escapeQuotes : List Char → List Char
  | [] => []
  | c :: r => if c = '"' then '"' :: '"' :: escapeQuotes r else c :: escapeQuotes r

/-- Documents handed to the encoder: an association of schema field names to
values, looked up by header. -/
abbrev Row := List (String × CellValue)

/-- result[i][headers[x]]: absent keys read as undefined. -/
def getField (row : Row) (h : String) : CellValue :=
  match row.find? (fun p => p.1 == h) with
  | none => .undef
  | some p => p.2

/-- Cells joined by the column delimiter, the (if x > 0 add a comma) pattern
of the source's inner loop. -/
def joinComma : List (List Char) → List Char
  | [] => []
  | [c] => c
  | c :: rest => c ++ ',' :: joinComma rest

/-- Replacement of every single quote by two double quotes, the
.replace(apostrophe, two quotes) of the first helper's final line and of the
second helper's object branch. -/
def replaceApos : List Char → List Char
  | [] => []
  | c :: r => if c = '\'' then '"' :: '"' :: replaceApos r else c :: replaceApos r

/-- Character class [a-zA-Z0-9_] of the key-quoting pattern. -/
def wordChar (c : Char) : Bool :=
  ('a' ≤ c && c ≤ 'z') || ('A' ≤ c && c ≤ 'Z') || ('0' ≤ c && c ≤ '9') || c = '_'

/-- Single or double quote, the optional groups of the key-quoting pattern. -/
def quoteChar (c : Char) : Bool := c = '\'' || c = '"'

/-- Match at the head of the input of the key-quoting pattern: an optional
quote, then one or more word characters (captured), an optional quote, and a
colon.  Backtracking over the optional groups cannot succeed when the greedy
attempt fails, because a quote is neither a word character nor a colon, so the
match is deterministic.  Returns the captured word and the input after the
colon. -/
def stripQuote (cs : List Char) : List Char :=
  match cs with
  | c :: r => if quoteChar c then r else c :: r
  | [] => []

def matchColonPat (cs : List Char) : Option (List Char × List Char) :=
  let cs1 := stripQuote cs
  let word := cs1.takeWhile wordChar
  if word.isEmpty then none
  else
    match stripQuote (cs1.dropWhile wordChar) with
    | ':' :: r => some (word, r)
    | _ => none

/-- Global replacement of the key-quoting pattern by two quotes, the captured
word, two quotes, a colon and a space.  The fuel starts at the input length,
which suffices because a successful match consumes at least two characters and
a failure advances one character. -/
def replaceColonPatAux : Nat → List Char → List Char
  | 0, cs => cs
  | _ + 1, [] => []
  | fuel + 1, c :: rest =>
    match matchColonPat (c :: rest) with
    | some (word, after) =>
      '"' :: '"' :: word ++ '"' :: '"' :: ':' :: ' ' :: replaceColonPatAux fuel after
    | none => c :: replaceColonPatAux fuel rest

/-- The .replace of the key-quoting pattern by quoted keys, applied by the
first helper to the whole CSV text and by the second helper to object cells. -/
def replaceColonPat (cs : List Char) : List Char :=
  replaceColonPatAux cs.length cs

/-- Cell encoding of the first convertToCsv (admin.helper.js lines 8-47):
undefined and null add nothing; arrays and objects are JSON-stringified and
quote-escaped; every other value is String-coerced and quote-escaped; each
non-empty case is wrapped in double quotes. -/
def encodeCellV1 (v : CellValue) : List Char :=
  match v with
  | .undef => []
  | .null => []
  | .obj json => '"' :: (escapeQuotes json.data ++ ['"'])
  | other => '"' :: (escapeQuotes (jsString other).data ++ ['"'])

namespace HelperV1

/-- convertToCsv of the first helper (admin.helper.js lines 8-47): header line,
one line per row, and the two global replacements applied to the whole text. -/
def convertToCsv (result : List Row) (headers : List String) : String :=
  let headerLine := joinComma (headers.map String.data)
  let lines := result.map (fun row =>
    joinComma (headers.map (fun h => encodeCellV1 (getField row h))) ++ ['\n'])
  String.mk (replaceColonPat (replaceApos (headerLine ++ '\n' :: lines.flatten)))

end HelperV1

/-! Date formatting of the second helper: moment.utc(value).format of the
pattern YYYY-MM-DD HH:mm:ss, that is the zero-padded UTC calendar components
of the epoch-millisecond timestamp.  Calendar conversion uses the standard
civil-from-days algorithm on floor-divided days; all divisors are positive, so
Euclidean division coincides with the floor division JavaScript performs. -/

/-- Zero-padding to two digits (moment's MM, DD, HH, mm, ss). -/
def pad2 (n : Int) : String :=
  if n < 10 then "0" ++ toString n else toString n

/-- Zero-padding to four digits (moment's YYYY) for non-negative years. -/
def pad4 (n : Int) : String :=
  if n < 10 then "000" ++ toString n
  else if n < 100 then "00" ++ toString n
  else if n < 1000 then "0" ++ toString n
  else toString n

/-- Proleptic Gregorian date of a day count from the 1970-01-01 epoch. -/
def civilFromDays (z0 : Int) : Int × Int × Int :=
  let z := z0 + 719468
  let era := z / 146097
  let doe := z - era * 146097
  let yoe := (doe - doe / 1460 + doe / 36524 - doe / 146096) / 365
  let y := yoe + era * 400
  let doy := doe - (365 * yoe + yoe / 4 - yoe / 100)
  let mp := (5 * doy + 2) / 153
  let d := doy - (153 * mp + 2) / 5 + 1
  let m := mp + (if mp < 10 then 3 else -9)
  (if m ≤ 2 then y + 1 else y, m, d)

/-- UTC calendar components (year, month, day, hour, minute, second) of an
epoch-millisecond timestamp. -/
def utcParts (ms : Int) : Int × Int × Int × Int × Int × Int :=
  let totalSecs := ms / 1000
  let days := totalSecs / 86400
  let secs := totalSecs - days * 86400
  ((civilFromDays days).1, (civilFromDays days).2.1, (civilFromDays days).2.2,
    secs / 3600, secs % 3600 / 60, secs % 60)

/-- moment.utc(value).format(YYYY-MM-DD HH:mm:ss) as used by the second
helper's date branch. -/
def momentUtcFormat (ms : Int) : String :=
  pad4 (utcParts ms).1 ++ "-" ++ pad2 (utcParts ms).2.1 ++ "-" ++
    pad2 (utcParts ms).2.2.1 ++ " " ++ pad2 (utcParts ms).2.2.2.1 ++ ":" ++
    pad2 (utcParts ms).2.2.2.2.1 ++ ":" ++ pad2 (utcParts ms).2.2.2.2.2

/-- Cell encoding of the second convertToCsv (admin.helper.js lines 280-323):
like the first version, but the key-quoting replacements apply only to the
JSON-stringified object branch, and date values are emitted through
moment.utc formatting, without surrounding quotes. -/
def encodeCellV2 (v : CellValue) : List Char :=
  match v with
  | .undef => []
  | .null => []
  | .obj json => '"' :: (replaceColonPat (replaceApos (escapeQuotes json.data)) ++ ['"'])
  | .date ms => (momentUtcFormat ms).data
  | other => '"' :: (escapeQuotes (jsString other).data ++ ['"'])

namespace HelperV2

/-- convertToCsv of the second helper (admin.helper.js lines 280-323). -/
def convertToCsv (result : List Row) (headers : List String) : String :=
  let headerLine := joinComma (headers.map String.data)
  let lines := result.map (fun row =>
    joinComma (headers.map (fun h => encodeCellV2 (getField row h))) ++ ['\n'])
  String.mk (headerLine ++ '\n' :: lines.flatten)

end HelperV2

/-! ## Query compiler: buildQuery (admin.helper.js lines 229-273) and the
relationship-filter expansion of index (admin.controller.js lines 42-125) -/

/-- Filter descriptor supplied with a request. -/
structure SFilter where
  field : String
  operator : String
  value : String
deriving DecidableEq, Repr

/-- Native operator keys of the store's query language.  An operator string
missing from OPERATOR_MAP reads as the JavaScript undefined key. -/
inductive MongoOp where
  | eq
  | ne
  | gt
  | lt
  | gte
  | lte
  | regex
  | undefinedKey
deriving DecidableEq, Repr

/-- The OPERATOR_MAP of buildQuery.  The keys are the code's operator strings;
any other string maps to the undefined key. -/
def OPERATOR_MAP (s : String) : MongoOp :=
  if s = "equals" then .eq
  else if s = "not equal" then .ne
  else if s = "greater than" then .gt
  else if s = "less than" then .lt
  else if s = "greater than or equal to" then .gte
  else if s = "less than or equal to" then .lte
  else if s = "like" then .regex
  else .undefinedKey

/-- Comparand attached to a compiled clause: the filter value string, a
case-insensitive regular expression built from it, or new Date(value), whose
parse is left abstract since no claim depends on it. -/
inductive QVal where
  | str (s : String)
  | regexI (pat : String)
  | dateOf (raw : String)
deriving DecidableEq, Repr

/-- One per-field predicate of the conjunction: an operator clause, the
boolean literal forced by the true/false operators, or the membership clause
produced by a relationship filter. -/
inductive Cond where
  | opCond (o : MongoOp) (v : QVal)
  | boolLit (b : Bool)
  | inList (ids : List String)
deriving DecidableEq, Repr

/-- One entry of the $and array: a field name and its condition. -/
structure InnerQuery where
  field : String
  cond : Cond
deriving DecidableEq, Repr

/-- buildQuery (admin.helper.js lines 229-273): one inner query per filter, in
filter order; the result is the $and list, and the caller replaces an empty
conjunction by the match-everything query. -/
def buildQuery (searchFilters : List SFilter) : List InnerQuery :=
  searchFilters.map (fun filter =>
    if filter.operator = "like" then
      ⟨filter.field, .opCond .regex (.regexI filter.value)⟩
    else if filter.operator = "true" then
      ⟨filter.field, .boolLit true⟩
    else if filter.operator = "false" then
      ⟨filter.field, .boolLit false⟩
    else if filter.field = "createdAt" || filter.field = "updatedAt" then
      ⟨filter.field, .opCond (OPERATOR_MAP filter.operator) (.dateOf filter.value)⟩
    else
      ⟨filter.field, .opCond (OPERATOR_MAP filter.operator) (.str filter.value)⟩)

/-- Case-sensitive occurrence of the first list at the head of the second. -/
def startsWithL : List Char → List Char → Bool
  | [], _ => true
  | _ :: _, [] => false
  | p :: ps, c :: cs => p = c && startsWithL ps cs

/-- Occurrence of the first list anywhere inside the second. -/
def hasSubL : List Char → List Char → Bool
  | [], _ => true
  | _ :: _, [] => false
  | pat, c :: cs => startsWithL pat (c :: cs) || hasSubL pat cs

/-- Lexicographic comparison of strings by character code, the ordering the
store applies between string values.  Defined structurally so that concrete
comparisons evaluate. -/
def strLtL : List Char → List Char → Bool
  | [], [] => false
  | [], _ :: _ => true
  | _ :: _, [] => false
  | a :: as, b :: bs =>
    if a.val < b.val then true
    else if b.val < a.val then false
    else strLtL as bs

/-- String order used by the modelled store semantics. -/
def strLt (a b : String) : Bool := strLtL a.data b.data

/-- Test of new RegExp(pattern, i-flag) against a string, for the
metacharacter-free patterns this layer builds: case-insensitive substring
containment. -/
def likeMatches (pat s : String) : Bool :=
  hasSubL (pat.data.map Char.toLower) (s.data.map Char.toLower)

/-- Semantics of one condition against a document field value, modelling the
external document store's documented operator behaviour: equality and ordering
compare values of the same type only; inequality matches whenever the values
are not equal, absent fields included; regular-expression and membership
clauses apply to string-valued fields; a clause under the undefined operator
key is the malformed embedded-document literal the spec calls a latent defect
and matches no scalar field value; comparisons against new Date(value) are
left abstract and match nothing here, since no claim depends on them. -/
def evalCond (c : Cond) (v : CellValue) : Bool :=
  match c with
  | .boolLit b => v = CellValue.boolean b
  | .inList ids =>
    match v with
    | .str s => ids.contains s
    | _ => false
  | .opCond o qv =>
    match o, qv, v with
    | .eq, .str q, .str s => s = q
    | .eq, .str _, _ => false
    | .ne, .str q, .str s => !(s = q)
    | .ne, .str _, _ => true
    | .gt, .str q, .str s => strLt q s
    | .gt, .str _, _ => false
    | .lt, .str q, .str s => strLt s q
    | .lt, .str _, _ => false
    | .gte, .str q, .str s => strLt q s || s = q
    | .gte, .str _, _ => false
    | .lte, .str q, .str s => strLt s q || s = q
    | .lte, .str _, _ => false
    | .regex, .regexI pat, .str s => likeMatches pat s
    | .regex, _, _ => false
    | _, .regexI _, _ => false
    | .undefinedKey, _, _ => false
    | _, .dateOf _, _ => false

/-- One inner query evaluated against a document. -/
def evalInner (iq : InnerQuery) (doc : Row) : Bool :=
  evalCond iq.cond (getField doc iq.field)

/-- The $and conjunction evaluated against a document; the empty conjunction
is the match-everything query the controller substitutes for it. -/
def evalQuery (q : List InnerQuery) (doc : Row) : Bool :=
  q.all (fun iq => evalInner iq doc)

/-- JavaScript String.split at a single-character separator (field.split of
the relationship check), defined structurally so concrete splits evaluate. -/
def splitAux (sep : Char) : List Char → List Char → List String
  | [], cur => [String.mk cur.reverse]
  | c :: rest, cur =>
    if c = sep then String.mk cur.reverse :: splitAux sep rest []
    else splitAux sep rest (c :: cur)

/-- field.split at one character, the dot of relationship filters. -/
def splitOnChar (sep : Char) (s : String) : List String :=
  splitAux sep s.data []

/-- o._id.toString(): identifiers are stored as strings in this model. -/
def idString (doc : Row) : String :=
  match getField doc "_id" with
  | .str s => s
  | other => jsString other

/-- External collaborators of index: the schema's relationship-target lookup
(schema.paths[name].options.ref) and the model registry giving the stored
documents of a named collection. -/
structure AdminSchema where
  schemaRef : String → Option String
  models : String → List Row

/-- Relationship-filter expansion of index (admin.controller.js lines 71-125).
The first for loop walks searchFilters from the last to the first, pushing
relationship splits and sub-queries in reverse order; the results loop then
walks those arrays from their end, so membership clauses enter the conjunction
in original filter order, while plain filters reach buildQuery in reverse
order.  Reading schema.paths[searchClass].options.ref for a field missing from
the schema is a TypeError, modelled as Except.error.  Each relationship
sub-query runs against the related collection and contributes the matching
identifiers as a membership clause on the parent field. -/
def buildSearchQuery (cls : AdminSchema) (searchFilters : List SFilter) :
    Except String (List InnerQuery) := do
  let rev := searchFilters.reverse
  let isRel := fun (f : SFilter) => 1 < (splitOnChar '.' f.field).length
  let rel := rev.filter isRel
  let nonRel := rev.filter (fun f => !isRel f)
  let relClauses ← rel.reverse.mapM (fun f => do
    let parts := splitOnChar '.' f.field
    let searchClass := parts.headD ""
    let searchField := (parts.drop 1).headD ""
    match cls.schemaRef searchClass with
    | none => Except.error ("TypeError: schema has no path " ++ searchClass)
    | some refName =>
      let subCond : Cond :=
        if f.operator = "like" then .opCond .regex (.regexI f.value)
        else if f.operator = "not equal" then .opCond .ne (.str f.value)
        else .opCond .eq (.str f.value)
      let ids := ((cls.models refName).filter
        (fun d => evalCond subCond (getField d searchField))).map idString
      pure (⟨searchClass, Cond.inList ids⟩ : InnerQuery))
  pure (relClauses ++ buildQuery nonRel)

/-! ## Response shaping: respondWithResult (admin.helper.js lines 135-156) -/

/-- JSON value sent in a response body. -/
inductive JVal where
  | str (s : String)
  | num (n : Int)
  | boolean (b : Bool)
  | null
  | obj (fields : List (String × JVal))
  | arr (elems : List JVal)

/-- blacklistRequestAttributes of admin.controller.js lines 16-22. -/
def blacklistRequestAttributes : List String :=
  ["_id", "salt", "resetPasswordExpires", "resetPasswordToken", "updatedAt", "createdAt", "__v"]

/-- blacklistResponseAttributes of admin.controller.js lines 23-28. -/
def blacklistResponseAttributes : List String :=
  ["_id", "password", "salt", "resetPasswordExpires", "resetPasswordToken", "__v"]

/-- respondWithResult (admin.helper.js lines 135-156): a falsy entity gets no
response; a non-array entity has each blacklisted attribute except _id deleted
from its own properties; an array entity, and anything nested below the top
level, passes through untouched; the entity is then sent with status 200. -/
def respondWithResult (blacklistAttributes : List String) (entity : Option JVal) :
    Option (Nat × JVal) :=
  match entity with
  | none => none
  | some v =>
    let shaped :=
      match v with
      | .arr es => JVal.arr es
      | .obj fs =>
        JVal.obj (fs.filter (fun p => p.1 = "_id" || !blacklistAttributes.contains p.1))
      | other => other
    some (200, shaped)

mutual

/-- Occurrence of an object key anywhere in the value, at any depth. -/
def hasKeyDeep (k : String) : JVal → Bool
  | .obj fs => hasKeyDeepFields k fs
  | .arr es => hasKeyDeepElems k es
  | _ => false

/-- Key occurrence within an object's field list. -/
def hasKeyDeepFields (k : String) : List (String × JVal) → Bool
  | [] => false
  | (f, v) :: rest => f = k || hasKeyDeep k v || hasKeyDeepFields k rest

/-- Key occurrence within an array's elements. -/
def hasKeyDeepElems (k : String) : List JVal → Bool
  | [] => false
  | v :: rest => hasKeyDeep k v || hasKeyDeepElems k rest

end

/-- Occurrence of a key among the value's own (top-level) object fields. -/
def topHasKey (k : String) : JVal → Bool
  | .obj fs => fs.any (fun p => p.1 = k)
  | _ => false

/-! ## JSON.parse model for the import path -/

/-- Parsed JSON value; numeric literals keep their source text, which is all
the import path needs. -/
inductive Json where
  | null
  | boolean (b : Bool)
  | num (lit : String)
  | str (s : String)
  | arr (elems : List Json)
  | obj (fields : List (String × Json))

/-- JSON insignificant whitespace. -/
def jsonWs (c : Char) : Bool := c = ' ' || c = '\t' || c = '\n' || c = '\r'

/-- Leading-whitespace removal. -/
def skipWs (cs : List Char) : List Char := cs.dropWhile jsonWs

/-- ASCII digit. -/
def digitChar (c : Char) : Bool := '0' ≤ c && c ≤ '9'

/-- String body after the opening quote: returns the decoded content and the
input after the closing quote.  The unicode escape is omitted from the model;
no claim exercises it. -/
def jsonStringRest : List Char → Option (List Char × List Char)
  | [] => none
  | '"' :: r => some ([], r)
  | '\\' :: e :: r =>
    let dec : Option Char :=
      if e = '"' then some '"'
      else if e = '\\' then some '\\'
      else if e = '/' then some '/'
      else if e = 'n' then some '\n'
      else if e = 't' then some '\t'
      else if e = 'r' then some '\r'
      else if e = 'b' then some (Char.ofNat 8)
      else if e = 'f' then some (Char.ofNat 12)
      else none
    match dec with
    | none => none
    | some c =>
      match jsonStringRest r with
      | some (s, rest) => some (c :: s, rest)
      | none => none
  | c :: r =>
    match jsonStringRest r with
    | some (s, rest) => some (c :: s, rest)
    | none => none

/-- Numeric literal at the head of the input: optional minus, an integer part,
an optional fraction and an optional exponent. -/
def jsonNumberRest (cs : List Char) : Option (List Char × List Char) :=
  let sgn : List Char × List Char :=
    match cs with
    | '-' :: r => (['-'], r)
    | _ => ([], cs)
  let ip := sgn.2.takeWhile digitChar
  if ip.isEmpty then none
  else
    let cs2 := sgn.2.dropWhile digitChar
    let frac : Option (List Char × List Char) :=
      match cs2 with
      | '.' :: r =>
        let ds := r.takeWhile digitChar
        if ds.isEmpty then none else some ('.' :: ds, r.dropWhile digitChar)
      | _ => some ([], cs2)
    match frac with
    | none => none
    | some (fr, cs3) =>
      let expo : Option (List Char × List Char) :=
        match cs3 with
        | c :: r =>
          if c = 'e' || c = 'E' then
            let se : List Char × List Char :=
              match r with
              | s :: r2 => if s = '+' || s = '-' then ([c, s], r2) else ([c], r)
              | [] => ([c], r)
            let ds := se.2.takeWhile digitChar
            if ds.isEmpty then none
            else some (se.1 ++ ds, se.2.dropWhile digitChar)
          else some ([], cs3)
        | [] => some ([], cs3)
      match expo with
      | none => none
      | some (ex, cs4) => some (sgn.1 ++ ip ++ fr ++ ex, cs4)

mutual

/-- One JSON value at the head of the input, after whitespace.  The fuel
bounds nesting and list length; every level consumes input, so the input
length plus one suffices. -/
def jsonValue : Nat → List Char → Option (Json × List Char)
  | 0, _ => none
  | fuel + 1, cs0 =>
    match skipWs cs0 with
    | 'n' :: 'u' :: 'l' :: 'l' :: r => some (.null, r)
    | 't' :: 'r' :: 'u' :: 'e' :: r => some (.boolean true, r)
    | 'f' :: 'a' :: 'l' :: 's' :: 'e' :: r => some (.boolean false, r)
    | '"' :: r =>
      match jsonStringRest r with
      | some (s, rest) => some (.str (String.mk s), rest)
      | none => none
    | '[' :: r =>
      match skipWs r with
      | ']' :: r2 => some (.arr [], r2)
      | _ =>
        match jsonElems fuel r with
        | some (es, rest) => some (.arr es, rest)
        | none => none
    | '{' :: r =>
      match skipWs r with
      | '}' :: r2 => some (.obj [], r2)
      | _ =>
        match jsonFields fuel r with
        | some (fs, rest) => some (.obj fs, rest)
        | none => none
    | cs =>
      match jsonNumberRest cs with
      | some (lit, rest) => some (.num (String.mk lit), rest)
      | none => none

/-- Comma-separated values up to the closing bracket. -/
def jsonElems : Nat → List Char → Option (List Json × List Char)
  | 0, _ => none
  | fuel + 1, cs =>
    match jsonValue fuel cs with
    | none => none
    | some (v, rest) =>
      match skipWs rest with
      | ',' :: r2 =>
        match jsonElems fuel r2 with
        | some (es, rest2) => some (v :: es, rest2)
        | none => none
      | ']' :: r2 => some ([v], r2)
      | _ => none

/-- Comma-separated key-value pairs up to the closing brace. -/
def jsonFields : Nat → List Char → Option (List (String × Json) × List Char)
  | 0, _ => none
  | fuel + 1, cs =>
    match skipWs cs with
    | '"' :: r =>
      match jsonStringRest r with
      | none => none
      | some (k, rest) =>
        match skipWs rest with
        | ':' :: r2 =>
          match jsonValue fuel r2 with
          | none => none
          | some (v, rest2) =>
            match skipWs rest2 with
            | ',' :: r3 =>
              match jsonFields fuel r3 with
              | some (fs, rest3) => some ((String.mk k, v) :: fs, rest3)
              | none => none
            | '}' :: r3 => some ([(String.mk k, v)], r3)
            | _ => none
        | _ => none
    | _ => none

end

/-- JSON.parse model: a single value followed by nothing but whitespace. -/
def jsonParse (s : String) : Option Json :=
  match jsonValue (s.length + 1) s.data with
  | some (v, rest) => if (skipWs rest).isEmpty then some v else none
  | none => none

/-! ## CSV import: importFromCsv, createWithRow, returnIfFinished
(admin.controller.js lines 316-467) -/

/-- Response bodies this layer emits. -/
inductive RespBody where
  | emptyBody
  | errorMsg (msg : String)
  | errorsObj (entries : List (String × String))
deriving DecidableEq, Repr

/-- An emitted response: status code and body.  Only the first response of a
request reaches the client; later emissions hit an already-ended response. -/
structure Resp where
  status : Nat
  body : RespBody
deriving DecidableEq, Repr

/-- Value stored into the object built for one CSV row: the raw cell string,
or the structured value parsed from a bracketed cell. -/
inductive ImportVal where
  | strVal (s : String)
  | jsonVal (j : Json)

/-- JavaScript property-key coercion: an undefined key reads as the string
"undefined". -/
def keyOf : Option String → String
  | some s => s
  | none => "undefined"

/-- The \s class of the trim in importFromCsv (common members). -/
def jsWs (c : Char) : Bool :=
  c = ' ' || c = '\t' || c = '\n' || c = '\r' || c = Char.ofNat 11 || c = Char.ofNat 12

/-- The replace(leading or trailing whitespace runs, empty) of importFromCsv. -/
def trimWs (s : String) : String :=
  String.mk (((s.data.dropWhile jsWs).reverse.dropWhile jsWs).reverse)

/-- Response emitted for a header missing from the schema (the template
literal renders an undefined cell as the string undefined). -/
def headerErrResp (h : Option String) : Resp :=
  ⟨503, .errorMsg ("The header \"" ++ keyOf h ++
    "\" does not match any properties in the schema")⟩

/-- Header validation loop of importFromCsv (admin.controller.js lines
329-340): walks csvHeaders from the last to the first and emits a 503 response
for every header whose indexOf in the schema headers is negative — the
headerUnknown test defined below the import model.  The loop does not return,
so the import continues regardless. -/
def headerCheckResponses (schemaHeaders : List String)
    (csvHeaders : List (Option String)) : List Resp :=
  csvHeaders.reverse.filterMap (fun h =>
    let found :=
      match h with
      | some s => schemaHeaders.contains s
      | none => false
    if found then none
    else some (headerErrResp h))

/-- substr(0,1) and substr(-1,1) bracket test of importFromCsv lines 364-365. -/
def bracketed (s : String) : Bool :=
  match s.data with
  | [] => false
  | c :: _ =>
    (c = '[' && s.data.getLast? = some ']') || (c = '{' && s.data.getLast? = some '}')

/-- Inner loop of importFromCsv for one data row (lines 344-381): zip headers
to cells in order, skipping blacklisted headers other than _id; a falsy cell
reads as the empty string; a bracketed cell is JSON-parsed, and on parse
failure a 503 response is emitted while the loop continues with the raw
string.  Returns the responses emitted during the row and the built object. -/
def buildRowObject : List (Option String) → List (Option String) →
    List Resp × List (String × ImportVal)
  | [], _ => ([], [])
  | h :: hs, cells =>
    let rest := buildRowObject hs (cells.drop 1)
    let skip :=
      match h with
      | some s => !(s = "_id") && blacklistRequestAttributes.contains s
      | none => false
    if skip then rest
    else
      let element : String :=
        match cells.headD none with
        | none => ""
        | some s => s
      if bracketed element then
        match jsonParse element with
        | some j => (rest.1, (keyOf h, ImportVal.jsonVal j) :: rest.2)
        | none =>
          (⟨503, .errorMsg "Error parsing array"⟩ :: rest.1,
            (keyOf h, ImportVal.strVal element) :: rest.2)
      else (rest.1, (keyOf h, ImportVal.strVal element) :: rest.2)

/-- Outcome of the synchronous phase of importFromCsv: responses in emission
order, the createWithRow calls issued (row index and built object), and
responseArray.length - 1, the completion target of returnIfFinished. -/
structure ImportSync where
  responses : List Resp
  ops : List (Nat × List (String × ImportVal))
  totalRows : Nat

/-- Synchronous phase of importFromCsv (admin.controller.js lines 316-405)
applied to the already-fetched CSV text: trim, tokenize, validate headers, and
build and submit one object per data row — createWithRow is issued for every
row no matter what the header check or the cell parsing reported.  none when
the tokenizer diverges. -/
def importFromCsvSync (schemaHeaders : List String) (csvText : String) :
    Option ImportSync :=
  match csvToArray (trimWs csvText) with
  | none => none
  | some responseArray =>
    let csvHeaders := responseArray.headD []
    let headerResponses := headerCheckResponses schemaHeaders csvHeaders
    let processed := (responseArray.drop 1).map (fun r => buildRowObject csvHeaders r)
    let rowResponses := (processed.map Prod.fst).flatten
    let ops := (processed.map Prod.snd).enum.map (fun p => (p.1 + 1, p.2))
    some ⟨headerResponses ++ rowResponses, ops, responseArray.length - 1⟩

/-- Ascending insertion by row index: JavaScript objects iterate integer-like
keys in ascending numeric order, whatever the insertion order was. -/
def insertSorted (p : Nat × String) : List (Nat × String) → List (Nat × String)
  | [] => [p]
  | q :: rest => if p.1 ≤ q.1 then p :: q :: rest else q :: insertSorted p rest

/-- Sort of the errored-rows record into JavaScript's iteration order. -/
def sortByKey (l : List (Nat × String)) : List (Nat × String) :=
  l.foldr insertSorted []

/-- returnIfFinished (admin.controller.js lines 443-467): nothing until the
finished count reaches responseArray.length - 1; then an empty 204 when no row
erred, otherwise a 400 whose body lists the first five errors by ascending row
index plus an excess entry when more than five rows failed. -/
def returnIfFinished (totalRows finishedRows : Nat)
    (erroredRows : List (Nat × String)) : Option Resp :=
  if finishedRows = totalRows then
    let numErrors := erroredRows.length
    if numErrors = 0 then some ⟨204, .emptyBody⟩
    else
      let shown := (sortByKey erroredRows).take 5
      let entries := shown.map (fun p =>
        ("error" ++ toString p.1,
          "Unable to add row: " ++ toString p.1 ++ " with error: " ++ p.2))
      let entries2 :=
        if 5 < numErrors then
          entries ++ [("excess", "And " ++ toString (numErrors - 5) ++ " more errors")]
        else entries
      some ⟨400, .errorsObj entries2⟩
  else none

/-- One settle event of a createWithRow call: the row index and none for
success or the error text for failure.  The callbacks of importFromCsv lines
383-390 bump finishedRows, record the error when present, and call
returnIfFinished. -/
def settleStep (totalRows : Nat) (st : Nat × List (Nat × String) × List Resp)
    (ev : Nat × Option String) : Nat × List (Nat × String) × List Resp :=
  let finished := st.1 + 1
  let errored :=
    match ev.2 with
    | some e => st.2.1 ++ [(ev.1, e)]
    | none => st.2.1
  let resps :=
    match returnIfFinished totalRows finished errored with
    | some r => st.2.2 ++ [r]
    | none => st.2.2
  (finished, errored, resps)

/-- The asynchronous phase of an import: settle events folded over the
callback state, starting from zero finished rows and no errors. -/
def settleRun (totalRows : Nat) (events : List (Nat × Option String)) :
    Nat × List (Nat × String) × List Resp :=
  events.foldl (settleStep totalRows) (0, [], [])

/-- The errors carried by a settle-event sequence, keyed by row index in
arrival order. -/
def settleErrors (events : List (Nat × Option String)) : List (Nat × String) :=
  events.filterMap (fun ev => ev.2.map (fun e => (ev.1, e)))

/-! ## Bulk delete: destroyMultiple (admin.controller.js lines 297-311) -/

/-- Documents matched by find with the $in query over req.body.ids; their
remove() calls are all issued immediately by results.map. -/
def destroyMultipleFound (store : List Row) (ids : List String) : List Row :=
  store.filter (fun d => ids.contains (idString d))

/-- Times of the res.status(204).end() calls of the Promise.each loop,
modelled from Bluebird's documented serial iteration over already-running
promises: the iterator for index i runs once promises 0 through i have all
settled, and each run ends the response.  The input is the settle time of each
removal in results order; with no results the iterator never runs and no
response is ever emitted. -/
def promiseEachEndTimes : List Nat → List Nat
  | [] => []
  | t :: ts => t :: (promiseEachEndTimes ts).map (fun u => max t u)

/-! ## Derived notions used by the theorem statements -/

/-- Terminating run of the tokenizing loop from a given state: some fuel makes
the loop finish with that output.  The zero-length-match guard inside csvLoop
fires independently of fuel, so a diverging state yields none at every fuel. -/
def runsTo (cs : List Char) (atStart : Bool) (acc out : List (List (Option String))) : Prop :=
  ∃ fuel, csvLoop fuel cs atStart acc = some out

/-- A CSV header cell that does not name a schema property (an undefined cell
never equals a schema string). -/
def headerUnknown (schemaHeaders : List String) (h : Option String) : Bool :=
  match h with
  | some s => !schemaHeaders.contains s
  | none => true

/-- Characters that keep a cell clear of the field and line delimiters and of
the two global replacements of the first helper (apostrophes and colons). -/
def safeChar (c : Char) : Bool :=
  !(c = ',' || c = '\r' || c = '\n' || c = '\'' || c = ':')

/-- Scalar cell values in the sense of the round-trip claim. -/
def scalarCell : CellValue → Prop
  | .str _ => True
  | .num _ => True
  | .boolean _ => True
  | _ => False

/-- Header admissible for the round-trip: non-empty, delimiter-free,
replacement-free and quote-free (headers are emitted unquoted). -/
def headerOkP (h : String) : Prop :=
  h ≠ "" ∧ ∀ c ∈ h.data, safeChar c = true ∧ c ≠ '"'

/-- Cell admissible for the round-trip: a scalar whose string coercion is
non-empty, delimiter-free and replacement-free (embedded double quotes are
allowed; the quoting escapes them). -/
def cellOkP (v : CellValue) : Prop :=
  scalarCell v ∧ jsString v ≠ "" ∧ ∀ c ∈ (jsString v).data, safeChar c = true

/-- Encoded header line: the headers joined by commas. -/
def headerBytes (headers : List String) : List Char :=
  joinComma (headers.map String.data)

/-- Encoded form of one quoted cell. -/
def quotedCell (s : String) : List Char :=
  '"' :: (escapeQuotes s.data ++ ['"'])

/-- Encoded tail of a line: comma plus quoted cell, for each remaining cell. -/
def commaCells (cells : List String) : List Char :=
  (cells.map (fun s => ',' :: quotedCell s)).flatten

/-- Encoded tail of the header line: comma plus unquoted header. -/
def commaHeaders (hs : List String) : List Char :=
  (hs.map (fun h => ',' :: h.data)).flatten

/-- Encoded data line (without its trailing line delimiter). -/
def encLine (cells : List String) : List Char :=
  match cells with
  | [] => []
  | c :: rest => quotedCell c ++ commaCells rest

/-- Everything the encoder emits after the header line: each data line
preceded by the line delimiter that ends the previous line, plus the line
delimiter that ends the last line. -/
def linesBytes (rows : List (List String)) : List Char :=
  (rows.map (fun cells => '\n' :: encLine cells)).flatten ++ ['\n']

/-- Concrete schema for the relationship-filter claims: the parent field owner
references the collection UserClass holding one document named x. -/
def relSchema : AdminSchema where
  schemaRef := fun c => if c = "owner" then some "UserClass" else none
  models := fun c =>
    if c = "UserClass" then [[("_id", CellValue.str "id1"), ("name", CellValue.str "x")]]
    else []

/-- Concrete schema for the relationship like-filter witness: the related
collection holds the documents Joanna (matching like Jo case-insensitively)
and Bob (not matching). -/
def relSchemaJo : AdminSchema where
  schemaRef := fun c => if c = "owner" then some "UserClass" else none
  models := fun c =>
    if c = "UserClass" then
      [[("_id", CellValue.str "u1"), ("name", CellValue.str "Joanna")],
       [("_id", CellValue.str "u2"), ("name", CellValue.str "Bob")]]
    else []

/-! ## Tokenizer infrastructure lemmas -/

theorem dropWhile_length_le (p : Char → Bool) (l : List Char) :
    (l.dropWhile p).length ≤ l.length :=
  (List.dropWhile_sublist p).length_le

theorem matchSep_nil (b : Bool) :
    matchSep [] b = if b then some (Sep.start, []) else none := by
  rw [matchSep.eq_def]

theorem matchSep_comma (r : List Char) (b : Bool) :
    matchSep (',' :: r) b = some (Sep.comma, r) := by
  rw [matchSep.eq_def]
  simp

theorem matchSep_lf (r : List Char) (b : Bool) :
    matchSep ('\n' :: r) b = some (Sep.newline, r) := by
  rw [matchSep.eq_def]
  simp

theorem matchSep_other (c : Char) (r : List Char) (b : Bool)
    (h1 : c ≠ ',') (h2 : c ≠ '\r') (h3 : c ≠ '\n') :
    matchSep (c :: r) b = if b then some (Sep.start, c :: r) else none := by
  rw [matchSep.eq_def]
  simp [h1, h2, h3]

theorem quotedRest_nil : quotedRest [] = none := by
  rw [quotedRest.eq_def]

theorem quotedRest_cons (c : Char) (rest : List Char) (h : c ≠ '"') :
    quotedRest (c :: rest) =
      match quotedRest rest with
      | some (content, rem) => some (c :: content, rem)
      | none => none := by
  rw [quotedRest.eq_def]
  simp [h]

theorem quotedRest_close (rest : List Char) (h : rest.head? ≠ some '"') :
    quotedRest ('"' :: rest) = some ([], rest) := by
  rw [quotedRest.eq_def]
  match rest with
  | [] => simp
  | c2 :: rest3 =>
    have : c2 ≠ '"' := by
      intro hc; apply h; rw [hc]; rfl
    simp [this]

theorem quotedRest_esc (rest3 : List Char) :
    quotedRest ('"' :: '"' :: rest3) =
      match quotedRest rest3 with
      | some (content, rem) => some ('"' :: '"' :: content, rem)
      | none => some ([], '"' :: rest3) := by
  rw [quotedRest.eq_def]
  simp

theorem matchField_nil : matchField [] = (some "", []) := by
  rw [matchField.eq_def]
  rfl

theorem matchField_notQuote (c : Char) (rest : List Char) (h : c ≠ '"') :
    matchField (c :: rest) =
      (some (String.mk ((c :: rest).takeWhile fieldChar)),
        (c :: rest).dropWhile fieldChar) := by
  rw [matchField.eq_def]
  simp [h]

theorem matchField_quote (rest : List Char) :
    matchField ('"' :: rest) =
      match quotedRest rest with
      | some (content, rem) =>
        if content.isEmpty then (none, rem)
        else (some (String.mk (unescapeQuotes content)), rem)
      | none => (some "", '"' :: rest) := by
  rw [matchField.eq_def]
  simp

theorem quotedRest_length : ∀ (n : Nat) (cs : List Char), cs.length ≤ n →
    ∀ content rem, quotedRest cs = some (content, rem) → rem.length < cs.length := by
  intro n
  induction n with
  | zero =>
    intro cs hcs content rem h
    match cs with
    | [] => rw [quotedRest_nil] at h; exact absurd h (by simp)
    | c :: rest => simp at hcs
  | succ n ih =>
    intro cs hcs content rem h
    match cs with
    | [] => rw [quotedRest_nil] at h; exact absurd h (by simp)
    | c :: rest =>
      by_cases hc : c = '"'
      · subst hc
        match rest with
        | [] =>
          rw [quotedRest_close [] (by simp)] at h
          simp at h
          simp [← h.2]
        | c2 :: rest3 =>
          by_cases hc2 : c2 = '"'
          · subst hc2
            rw [quotedRest_esc rest3] at h
            cases hq : quotedRest rest3 with
            | some p =>
              rw [hq] at h
              simp at h
              have hlt := ih rest3 (by simp at hcs; omega) p.1 p.2 (by rw [hq])
              simp [← h.2]
              omega
            | none =>
              rw [hq] at h
              simp at h
              simp [← h.2]
          · rw [quotedRest_close (c2 :: rest3) (by simp [hc2])] at h
            simp at h
            simp [← h.2]
      · rw [quotedRest_cons c rest hc] at h
        cases hq : quotedRest rest with
        | some p =>
          rw [hq] at h
          simp at h
          have hlt := ih rest (by simp at hcs; omega) p.1 p.2 (by rw [hq])
          simp [← h.2]
          omega
        | none => rw [hq] at h; exact absurd h (by simp)

theorem quotedRest_length_self (cs content rem : List Char)
    (h : quotedRest cs = some (content, rem)) : rem.length < cs.length :=
  quotedRest_length cs.length cs (le_refl _) content rem h

theorem matchField_length (cs : List Char) : (matchField cs).2.length ≤ cs.length := by
  match cs with
  | [] => rw [matchField_nil]
  | c :: rest =>
    by_cases hc : c = '"'
    · subst hc
      rw [matchField_quote rest]
      cases hq : quotedRest rest with
      | some p =>
        have hlt := quotedRest_length_self rest p.1 p.2 (by rw [hq])
        by_cases he : p.1.isEmpty
        · simp [he]
          omega
        · simp [he]
          omega
      | none => simp
    · rw [matchField_notQuote c rest hc]
      exact dropWhile_length_le fieldChar (c :: rest)

theorem matchSep_false_length (cs : List Char) (sep : Sep) (r : List Char)
    (h : matchSep cs false = some (sep, r)) : r.length < cs.length := by
  match cs with
  | [] => rw [matchSep_nil] at h; simp at h
  | c :: rest =>
    by_cases hc : c = ','
    · subst hc
      rw [matchSep_comma] at h
      simp at h
      simp [← h.2]
    · by_cases hr : c = '\r'
      · subst hr
        rw [matchSep.eq_def] at h
        simp at h
        match rest with
        | [] =>
          simp at h
          simp [← h.2]
        | c2 :: rest2 =>
          by_cases hn : c2 = '\n'
          · simp [hn] at h
            simp [← h.2]
            omega
          · simp [hn] at h
            simp [← h.2]
      · by_cases hn : c = '\n'
        · subst hn
          rw [matchSep_lf] at h
          simp at h
          simp [← h.2]
        · rw [matchSep_other c rest false hc hr hn] at h
          simp at h

theorem execMatch_false_length (cs : List Char) (sep : Sep) (v : Option String)
    (rest : List Char) (h : execMatch cs false = some (sep, v, rest)) :
    rest.length < cs.length := by
  rw [execMatch] at h
  cases hs : matchSep cs false with
  | some p =>
    rw [hs] at h
    simp at h
    have h1 := matchSep_false_length cs p.1 p.2 (by rw [hs])
    have h2 := matchField_length p.2
    have h3 : rest = (matchField p.2).2 := by rw [h.2]
    rw [h3]
    omega
  | none =>
    rw [hs] at h
    simp at h
    cases hs2 : matchSep (cs.dropWhile fun c => !sepChar c) false with
    | some p =>
      rw [hs2] at h
      simp at h
      have h1 := matchSep_false_length _ p.1 p.2 (by rw [hs2])
      have h2 := matchField_length p.2
      have h3 := dropWhile_length_le (fun c => !sepChar c) cs
      have h4 : rest = (matchField p.2).2 := by rw [h.2]
      rw [h4]
      omega
    | none => rw [hs2] at h; simp at h

theorem pushLast_length (acc : List (List (Option String))) (v : Option String) :
    acc.length ≤ (pushLast acc v).length := by
  induction acc with
  | nil => simp [pushLast]
  | cons row rest ih =>
    match rest with
    | [] => simp [pushLast]
    | r2 :: rest2 =>
      rw [pushLast.eq_def]
      simp only [List.length_cons]
      simp at ih ⊢
      omega

theorem pushLast_cons2 (a b : List (Option String)) (t : List (List (Option String)))
    (v : Option String) : pushLast (a :: b :: t) v = a :: pushLast (b :: t) v := rfl

theorem pushLast_append (acc : List (List (Option String))) (row : List (Option String))
    (v : Option String) : pushLast (acc ++ [row]) v = acc ++ [row ++ [v]] := by
  induction acc with
  | nil => rfl
  | cons r2 rest ih =>
    cases rest with
    | nil => rfl
    | cons r3 rest2 =>
      show pushLast (r2 :: ((r3 :: rest2) ++ [row])) v = r2 :: ((r3 :: rest2) ++ [row ++ [v]])
      rw [show (r3 :: rest2) ++ [row] = r3 :: (rest2 ++ [row]) from rfl]
      rw [pushLast_cons2]
      rw [show r3 :: (rest2 ++ [row]) = (r3 :: rest2) ++ [row] from rfl]
      rw [ih]

theorem csvLoop_total : ∀ (fuel : Nat) (cs : List Char) (acc : List (List (Option String))),
    cs.length < fuel →
    ∃ out, csvLoop fuel cs false acc = some out ∧ acc.length ≤ out.length := by
  intro fuel
  induction fuel with
  | zero => intro cs acc h; omega
  | succ n ih =>
    intro cs acc h
    cases he : execMatch cs false with
    | none =>
      rw [csvLoop, he]
      exact ⟨acc, rfl, le_refl _⟩
    | some t =>
      obtain ⟨sep, v, rest⟩ := t
      have hlt := execMatch_false_length cs sep v rest he
      rw [csvLoop, he]
      simp only [if_pos hlt]
      have hrest : rest.length < n := by omega
      obtain ⟨out, hout, hle⟩ :=
        ih rest (pushLast (if sep = Sep.newline then acc ++ [[]] else acc) v) hrest
      refine ⟨out, hout, ?_⟩
      have h1 : acc.length ≤ (if sep = Sep.newline then acc ++ [[]] else acc).length := by
        by_cases hsep : sep = Sep.newline <;> simp [hsep]
      have h2 := pushLast_length (if sep = Sep.newline then acc ++ [[]] else acc) v
      omega

theorem csvLoop_mono : ∀ (fuel : Nat) (cs : List Char) (b : Bool)
    (acc out : List (List (Option String))),
    csvLoop fuel cs b acc = some out → csvLoop (fuel + 1) cs b acc = some out := by
  intro fuel
  induction fuel with
  | zero => intro cs b acc out h; simp [csvLoop] at h
  | succ n ih =>
    intro cs b acc out h
    cases he : execMatch cs b with
    | none =>
      rw [csvLoop, he] at h
      rw [csvLoop, he]
      exact h
    | some t =>
      obtain ⟨sep, v, rest⟩ := t
      rw [csvLoop, he] at h
      rw [csvLoop, he]
      by_cases hlt : rest.length < cs.length
      · simp only [if_pos hlt] at h ⊢
        exact ih rest false _ out h
      · simp only [if_neg hlt] at h
        exact absurd h (by simp)

theorem csvLoop_mono_le (fuel fuel2 : Nat) (cs : List Char) (b : Bool)
    (acc out : List (List (Option String))) (hle : fuel ≤ fuel2)
    (h : csvLoop fuel cs b acc = some out) : csvLoop fuel2 cs b acc = some out := by
  induction fuel2 with
  | zero =>
    have : fuel = 0 := by omega
    subst this
    exact h
  | succ n ih =>
    by_cases hf : fuel = n + 1
    · subst hf; exact h
    · exact csvLoop_mono n cs b acc out (ih (by omega))

theorem csvLoop_shrink : ∀ (f : Nat) (cs : List Char) (b : Bool)
    (acc o : List (List (Option String))),
    csvLoop f cs b acc = some o → csvLoop (cs.length + 1) cs b acc = some o := by
  intro f
  induction f with
  | zero => intro cs b acc o hh; simp [csvLoop] at hh
  | succ n ih =>
    intro cs b acc o hh
    cases he : execMatch cs b with
    | none =>
      rw [csvLoop, he] at hh
      rw [csvLoop, he]
      exact hh
    | some t =>
      obtain ⟨sep, v, rest⟩ := t
      rw [csvLoop, he] at hh
      by_cases hlt : rest.length < cs.length
      · simp only [if_pos hlt] at hh
        have h2 := ih rest false _ o hh
        rw [csvLoop, he]
        simp only [if_pos hlt]
        exact csvLoop_mono_le (rest.length + 1) cs.length rest false _ o (by omega) h2
      · simp only [if_neg hlt] at hh
        exact absurd hh (by simp)

theorem runsTo_csvToArray (s : String) (out : List (List (Option String)))
    (h : runsTo s.data true [[]] out) : csvToArray s = some out := by
  obtain ⟨fuel, hfuel⟩ := h
  rw [csvToArray]
  have hlen : s.length = s.data.length := rfl
  rw [hlen]
  exact csvLoop_shrink fuel s.data true [[]] out hfuel

theorem runsTo_step (cs : List Char) (b : Bool) (sep : Sep) (v : Option String)
    (rest : List Char) (acc out : List (List (Option String)))
    (he : execMatch cs b = some (sep, v, rest)) (hlt : rest.length < cs.length)
    (h : runsTo rest false (pushLast (if sep = Sep.newline then acc ++ [[]] else acc) v) out) :
    runsTo cs b acc out := by
  obtain ⟨fuel, hfuel⟩ := h
  refine ⟨fuel + 1, ?_⟩
  rw [csvLoop, he]
  simp only [if_pos hlt]
  exact hfuel

theorem runsTo_done (cs : List Char) (b : Bool) (acc : List (List (Option String)))
    (he : execMatch cs b = none) : runsTo cs b acc acc :=
  ⟨1, by rw [csvLoop, he]⟩

theorem execMatch_first_nonempty (c : Char) (cs2 : List Char) (hcq : c ≠ '"') :
    ∃ sep v rest, execMatch (c :: cs2) true = some (sep, v, rest) ∧
      rest.length < (c :: cs2).length := by
  by_cases hc1 : c = ','
  · subst hc1
    refine ⟨Sep.comma, (matchField cs2).1, (matchField cs2).2, ?_, ?_⟩
    · rw [execMatch, matchSep_comma]
    · have := matchField_length cs2
      simp
      omega
  · by_cases hc2 : c = '\r'
    · subst hc2
      match cs2 with
      | [] =>
        refine ⟨Sep.newline, (matchField []).1, (matchField []).2, ?_, ?_⟩
        · rw [execMatch, matchSep.eq_def]
          simp
        · rw [matchField_nil]
          simp
      | c2 :: rest2 =>
        by_cases hn : c2 = '\n'
        · subst hn
          refine ⟨Sep.newline, (matchField rest2).1, (matchField rest2).2, ?_, ?_⟩
          · rw [execMatch, matchSep.eq_def]
            simp
          · have := matchField_length rest2
            simp
            omega
        · refine ⟨Sep.newline, (matchField (c2 :: rest2)).1, (matchField (c2 :: rest2)).2,
            ?_, ?_⟩
          · rw [execMatch, matchSep.eq_def]
            simp [hn]
          · have := matchField_length (c2 :: rest2)
            simp at this ⊢
            omega
    · by_cases hc3 : c = '\n'
      · subst hc3
        refine ⟨Sep.newline, (matchField cs2).1, (matchField cs2).2, ?_, ?_⟩
        · rw [execMatch, matchSep_lf]
        · have := matchField_length cs2
          simp
          omega
      · refine ⟨Sep.start, (matchField (c :: cs2)).1, (matchField (c :: cs2)).2, ?_, ?_⟩
        · rw [execMatch, matchSep_other c cs2 true hc1 hc2 hc3]
          simp
        · rw [matchField_notQuote c cs2 hcq]
          have hfc : fieldChar c = true := by
            simp [fieldChar, sepChar, hcq, hc1, hc2, hc3]
          show (List.dropWhile fieldChar (c :: cs2)).length < (c :: cs2).length
          rw [List.dropWhile_cons]
          rw [hfc]
          simp
          have := dropWhile_length_le fieldChar cs2
          omega

/-! ## Claim C10: termination of csvToArray -/

/-- Claim C10 counterexample: the claim asserts that csvToArray terminates and
returns a non-empty array of rows for every input string, the empty string
included.  On the empty string (and on an input opening with a malformed
quoted field) the pattern matches the empty string at position zero without
advancing lastIndex, so the JavaScript while (exec) loop never reaches the end
of the input; the embedding returns none for exactly those runs. -/
theorem c10_counterexample : csvToArray "" = none ∧ csvToArray "\"abc" = none := by
  constructor <;> rfl

/-- Claim C10 (amended): csvToArray terminates and returns a non-empty array
of rows for every non-empty input string whose first character is not a double
quote.  On the empty string the tokenizing loop repeats a zero-length match
forever — at every fuel and whatever rows are already accumulated — so the
original claim fails for the empty input (and for inputs opening with a
malformed quoted field). -/
theorem c10_amended (s : String) (h1 : s ≠ "") (h2 : s.data.head? ≠ some '"') :
    (∃ rows, csvToArray s = some rows ∧ rows ≠ []) ∧
    (∀ fuel acc, csvLoop fuel ([] : List Char) true acc = none) := by
  constructor
  · match hd : s.data with
    | [] =>
      exfalso
      apply h1
      have hs : s = String.mk s.data := rfl
      rw [hs, hd]
    | c :: cs2 =>
      have hcq : c ≠ '"' := by
        intro hc
        apply h2
        rw [hd, hc]
        rfl
      obtain ⟨sep, v, rest, he, hlt⟩ := execMatch_first_nonempty c cs2 hcq
      have hrest : rest.length < s.data.length := by rw [hd]; exact hlt
      obtain ⟨out, hout, hle⟩ := csvLoop_total s.data.length rest
        (pushLast (if sep = Sep.newline then [[]] ++ [[]] else [[]]) v) hrest
      refine ⟨out, ?_, ?_⟩
      · apply runsTo_csvToArray
        rw [hd]
        exact runsTo_step _ _ sep v rest _ _ he hlt ⟨s.data.length, hout⟩
      · have hp : 1 ≤ (pushLast (if sep = Sep.newline then [[]] ++ [[]] else [[]]) v).length := by
          by_cases hsep : sep = Sep.newline
          · simp only [hsep, if_pos rfl]
            have := pushLast_length ([[]] ++ [[]] : List (List (Option String))) v
            simp at this ⊢
            omega
          · simp only [if_neg hsep]
            have := pushLast_length ([[]] : List (List (Option String))) v
            simp at this ⊢
            omega
        intro hnil
        rw [hnil, List.length_nil] at hle
        omega
  · intro fuel acc
    match fuel with
    | 0 => rfl
    | n + 1 =>
      have he : execMatch ([] : List Char) true =
          some (Sep.start, (matchField []).1, (matchField []).2) := by
        rw [execMatch, matchSep_nil]
        simp
      rw [csvLoop, he]
      simp

/-! ## Claim C1: password stripping in respondWithResult -/

/-- Claim C10 witness: the amended theorem applied to the one-character
input a, whose first character is not a double quote. -/
theorem c10_amended_witness :
    (∃ rows, csvToArray "a" = some rows ∧ rows ≠ []) ∧
    (∀ fuel acc, csvLoop fuel ([] : List Char) true acc = none) :=
  c10_amended "a" (by decide) (by decide)

/-- Claim C1 counterexample: the claim asserts that no JSON response body ever
contains a password key, and in particular that each item inside the list
operation's itemCount/items envelope has its password removed.  The shaping
step deletes blacklisted keys only from the top level of a non-array entity,
so the envelope passes through unchanged and the password nested inside its
items survives into the response. -/
theorem c1_counterexample :
    respondWithResult blacklistResponseAttributes
        (some (JVal.obj [("itemCount", JVal.num 1),
          ("items", JVal.arr [JVal.obj [("name", JVal.str "u"),
            ("password", JVal.str "secret")]])])) =
      some (200, JVal.obj [("itemCount", JVal.num 1),
        ("items", JVal.arr [JVal.obj [("name", JVal.str "u"),
          ("password", JVal.str "secret")]])]) ∧
    hasKeyDeep "password"
      (JVal.obj [("itemCount", JVal.num 1),
        ("items", JVal.arr [JVal.obj [("name", JVal.str "u"),
          ("password", JVal.str "secret")]])]) = true := by
  exact ⟨rfl, rfl⟩

/-- Claim C1 (amended): respondWithResult removes every blacklisted attribute
other than the identifier from the top level of a non-array entity before the
200 response is sent, so a single-entity response never carries a top-level
password key; entities nested below the top level — in particular the items
inside the list envelope — are not stripped. -/
theorem c1_amended (fields : List (String × JVal)) (attr : String)
    (h1 : attr ∈ blacklistResponseAttributes) (h2 : attr ≠ "_id") :
    ∃ shaped, respondWithResult blacklistResponseAttributes (some (JVal.obj fields)) =
      some (200, shaped) ∧ topHasKey attr shaped = false := by
  refine ⟨_, rfl, ?_⟩
  rw [topHasKey]
  rw [List.any_eq_false]
  intro p hp
  rw [List.mem_filter] at hp
  intro hattr
  have hattr2 : p.1 = attr := of_decide_eq_true hattr
  have hmem := hp.2
  simp only [Bool.or_eq_true, decide_eq_true_eq, Bool.not_eq_true'] at hmem
  cases hmem with
  | inl h => exact h2 (hattr2 ▸ h)
  | inr h =>
    rw [hattr2] at h
    rw [show blacklistResponseAttributes.contains attr =
      List.elem attr blacklistResponseAttributes from rfl] at h
    rw [List.elem_eq_true_of_mem h1] at h
    exact absurd h (by simp)

/-- Claim C1 witness: the amended theorem applied to a user document carrying
a password field. -/
theorem c1_amended_witness :
    ∃ shaped, respondWithResult blacklistResponseAttributes
      (some (JVal.obj [("name", JVal.str "u"), ("password", JVal.str "secret")])) =
      some (200, shaped) ∧ topHasKey "password" shaped = false :=
  c1_amended [("name", JVal.str "u"), ("password", JVal.str "secret")] "password"
    (by decide) (by decide)

/-! ## Claim C4: the plain-filter operator table -/

/-- Claim C4 counterexample: the claim uses the spec's hyphenated operator
names and asserts that compiling the descriptor with operator string
greater-than on field age and value 21 yields a predicate matching exactly the
documents with age above 21.  The code's OPERATOR_MAP keys are space
separated, so greater-than maps to the undefined operator key and the clause
matches neither a document whose age is the string 30 nor one whose age is the
number 30, both of which exceed 21 under any reading. -/
theorem c4_counterexample :
    buildQuery [⟨"age", "greater-than", "21"⟩] =
      [⟨"age", Cond.opCond MongoOp.undefinedKey (QVal.str "21")⟩] ∧
    evalQuery (buildQuery [⟨"age", "greater-than", "21"⟩])
      [("age", CellValue.str "30")] = false ∧
    evalQuery (buildQuery [⟨"age", "greater-than", "21"⟩])
      [("age", CellValue.num 30)] = false := by
  exact ⟨by decide, by decide, by decide⟩

/-- Claim C4 (amended): with the code's space-separated operator strings the
compiler maps equals to eq, not equal to ne, greater than to gt, less than to
lt, greater than or equal to to gte, less than or equal to to lte and like to
a case-insensitive regular expression, on every field other than the two
timestamp fields (whose values are coerced to dates); compiling the single
descriptor age greater than 21 yields a predicate matching exactly the
documents whose age is a string comparing greater than the string 21 under
the store's same-type ordering; and compiling the empty filter list yields the
match-everything predicate. -/
theorem c4_amended (f v : String) (doc : Row)
    (hf1 : f ≠ "createdAt") (hf2 : f ≠ "updatedAt") :
    buildQuery [⟨f, "equals", v⟩] = [⟨f, .opCond .eq (.str v)⟩] ∧
    buildQuery [⟨f, "not equal", v⟩] = [⟨f, .opCond .ne (.str v)⟩] ∧
    buildQuery [⟨f, "greater than", v⟩] = [⟨f, .opCond .gt (.str v)⟩] ∧
    buildQuery [⟨f, "less than", v⟩] = [⟨f, .opCond .lt (.str v)⟩] ∧
    buildQuery [⟨f, "greater than or equal to", v⟩] = [⟨f, .opCond .gte (.str v)⟩] ∧
    buildQuery [⟨f, "less than or equal to", v⟩] = [⟨f, .opCond .lte (.str v)⟩] ∧
    buildQuery [⟨f, "like", v⟩] = [⟨f, .opCond .regex (.regexI v)⟩] ∧
    (evalQuery (buildQuery [⟨"age", "greater than", "21"⟩]) doc = true ↔
      ∃ s, getField doc "age" = CellValue.str s ∧ strLt "21" s = true) ∧
    evalQuery (buildQuery []) doc = true := by
  refine ⟨?_, ?_, ?_, ?_, ?_, ?_, ?_, ?_, ?_⟩
  · simp [buildQuery, OPERATOR_MAP, hf1, hf2]
  · simp [buildQuery, OPERATOR_MAP, hf1, hf2]
  · simp [buildQuery, OPERATOR_MAP, hf1, hf2]
  · simp [buildQuery, OPERATOR_MAP, hf1, hf2]
  · simp [buildQuery, OPERATOR_MAP, hf1, hf2]
  · simp [buildQuery, OPERATOR_MAP, hf1, hf2]
  · simp [buildQuery, OPERATOR_MAP, hf1, hf2]
  · rw [show buildQuery [⟨"age", "greater than", "21"⟩] =
      [⟨"age", Cond.opCond MongoOp.gt (QVal.str "21")⟩] from by decide]
    rw [evalQuery]
    simp only [List.all_cons, List.all_nil, Bool.and_true]
    rw [evalInner]
    cases hv : getField doc "age" with
    | str s => simp [evalCond]
    | undef => simp [evalCond]
    | null => simp [evalCond]
    | num n => simp [evalCond]
    | boolean b => simp [evalCond]
    | obj j => simp [evalCond]
    | date ms => simp [evalCond]
  · rw [evalQuery]
    rfl

/-- Claim C4 witness: the amended theorem applied to the name field, value Jo
and a document whose age is the string 30. -/
theorem c4_amended_witness :
    evalQuery (buildQuery [⟨"age", "greater than", "21"⟩])
      [("age", CellValue.str "30")] = true := by
  have h := c4_amended "name" "Jo" [("age", CellValue.str "30")] (by decide) (by decide)
  exact h.2.2.2.2.2.2.2.1.mpr ⟨"30", rfl, by decide⟩

/-! ## Claim C8: bulk delete response timing -/

/-- Claim C8 counterexample: the claim asserts N removals for a list of N ids
and a single no-content response only after all N have settled.  With two
matching documents whose removals settle at times 5 and 9, the Promise.each
iterator ends the response at time 5, while the second removal is pending
until time 9; and with one id that matches no document, zero removals are
issued instead of one and no response is ever emitted. -/
theorem c8_counterexample :
    destroyMultipleFound
        [[("_id", CellValue.str "a")], [("_id", CellValue.str "b")]] ["a", "b"] =
      [[("_id", CellValue.str "a")], [("_id", CellValue.str "b")]] ∧
    (promiseEachEndTimes [5, 9]).head? = some 5 ∧
    ¬ (∀ t ∈ ([5, 9] : List Nat), t ≤ 5) ∧
    destroyMultipleFound [[("_id", CellValue.str "a")]] ["ghost"] = [] ∧
    promiseEachEndTimes [] = [] := by
  refine ⟨by decide, by decide, by decide, by decide, by decide⟩

theorem promiseEachEndTimes_length (ts : List Nat) :
    (promiseEachEndTimes ts).length = ts.length := by
  induction ts with
  | nil => rfl
  | cons t rest ih =>
    rw [promiseEachEndTimes]
    simp [ih]

/-- Claim C8 (amended): destroyMultiple issues one removal per document whose
identifier is in the supplied list (which is fewer than N when some ids match
nothing), and the Promise.each iterator emits one 204 per removal — the first
as soon as the first-listed removal settles, even while later removals are
still pending; when no document matches, the iterator never runs and no
response is emitted at all. -/
theorem c8_amended (store : List Row) (ids : List String) (t0 : Nat) (ts : List Nat) :
    (promiseEachEndTimes (t0 :: ts)).head? = some t0 ∧
    (promiseEachEndTimes (t0 :: ts)).length = ts.length + 1 ∧
    promiseEachEndTimes [] = [] ∧
    (destroyMultipleFound store ids).length ≤ store.length := by
  refine ⟨rfl, ?_, rfl, ?_⟩
  · rw [promiseEachEndTimes_length]
    rfl
  · exact List.length_filter_le _ _

/-! ## Claim C9: UTC date formatting in the export encoder -/

/-- Claim C9: in the second helper's encoder — the one the export path with a
date branch uses — every cell value whose runtime type is a date is emitted as
the zero-padded string of its UTC calendar components in the layout
YYYY-MM-DD HH:mm:ss (and, preserving the code's behaviour, without
surrounding quotes); the time components obey the clock ranges. -/
theorem c9_date_format (ms y m d hh mi ss : Int)
    (hparts : utcParts ms = (y, m, d, hh, mi, ss)) :
    encodeCellV2 (CellValue.date ms) = (momentUtcFormat ms).data ∧
    HelperV2.convertToCsv [[("when", CellValue.date ms)]] ["when"] =
      "when\n" ++ momentUtcFormat ms ++ "\n" ∧
    momentUtcFormat ms =
      pad4 y ++ "-" ++ pad2 m ++ "-" ++ pad2 d ++ " " ++
        pad2 hh ++ ":" ++ pad2 mi ++ ":" ++ pad2 ss ∧
    (0 ≤ ss ∧ ss < 60 ∧ 0 ≤ mi ∧ mi < 60 ∧ 0 ≤ hh ∧ hh < 24) := by
  refine ⟨rfl, ?_, ?_, ?_⟩
  · have hdata : "when".data ++ '\n' ::
        ((encodeCellV2 (getField [("when", CellValue.date ms)] "when") ++ ['\n']) ++ []) =
      ("when\n" ++ momentUtcFormat ms ++ "\n").data := by
      rw [List.append_nil]
      rfl
    calc HelperV2.convertToCsv [[("when", CellValue.date ms)]] ["when"]
        = String.mk ("when\n" ++ momentUtcFormat ms ++ "\n").data := by
          rw [HelperV2.convertToCsv]
          exact congrArg String.mk hdata
      _ = "when\n" ++ momentUtcFormat ms ++ "\n" := rfl
  · rw [momentUtcFormat, hparts]
  · rw [utcParts] at hparts
    simp only [Prod.mk.injEq] at hparts
    obtain ⟨hy, hm, hd2, hh2, hmi2, hss2⟩ := hparts
    subst hh2
    subst hmi2
    subst hss2
    omega

/-- Claim C9 witness: the date-format theorem applied at the timestamp
1456758309000, whose UTC rendering is the leap-day string 2016-02-29
15:05:09. -/
theorem c9_date_format_witness :
    momentUtcFormat 1456758309000 = "2016-02-29 15:05:09" ∧
    HelperV2.convertToCsv [[("when", CellValue.date 1456758309000)]] ["when"] =
      "when\n" ++ momentUtcFormat 1456758309000 ++ "\n" := by
  constructor
  · decide
  · exact (c9_date_format 1456758309000 2016 2 29 15 5 9 (by decide)).2.1

/-! ## Import model lemmas -/

theorem headerCheck_fun_eq (schemaHeaders : List String) (h : Option String) :
    (let found :=
      match h with
      | some s => schemaHeaders.contains s
      | none => false
     if found then none else some (headerErrResp h)) =
    if headerUnknown schemaHeaders h then some (headerErrResp h) else none := by
  cases h with
  | none => rfl
  | some s => cases hcb : schemaHeaders.contains s <;> simp [headerUnknown, hcb]

theorem filterMap_headerErr_head (schemaHeaders : List String) :
    ∀ l : List (Option String),
      l.any (fun h => headerUnknown schemaHeaders h) = true →
      ∃ h, headerUnknown schemaHeaders h = true ∧
        (l.filterMap (fun h =>
          let found :=
            match h with
            | some s => schemaHeaders.contains s
            | none => false
          if found then none else some (headerErrResp h))).head? =
        some (headerErrResp h) := by
  intro l
  induction l with
  | nil => intro hany; simp at hany
  | cons h t ih =>
    intro hany
    rw [List.filterMap_cons]
    rw [headerCheck_fun_eq]
    by_cases hu : headerUnknown schemaHeaders h = true
    · exact ⟨h, hu, by rw [if_pos hu]; rfl⟩
    · rw [if_neg hu]
      apply ih
      simp only [List.any_cons, Bool.or_eq_true] at hany
      cases hany with
      | inl hbad => exact absurd hbad hu
      | inr hrest => exact hrest

theorem importSync_shape (schemaHeaders : List String) (csvText : String)
    (arr : List (List (Option String)))
    (harr : csvToArray (trimWs csvText) = some arr) :
    importFromCsvSync schemaHeaders csvText = some
      ⟨headerCheckResponses schemaHeaders (arr.headD []) ++
        (((arr.drop 1).map (fun r => buildRowObject (arr.headD []) r)).map Prod.fst).flatten,
      ((((arr.drop 1).map (fun r => buildRowObject (arr.headD []) r)).map Prod.snd).enum.map
        (fun p => (p.1 + 1, p.2))),
      arr.length - 1⟩ := by
  rw [importFromCsvSync, harr]

theorem importSync_ops_length (schemaHeaders : List String) (csvText : String)
    (arr : List (List (Option String)))
    (harr : csvToArray (trimWs csvText) = some arr) :
    ∃ sync, importFromCsvSync schemaHeaders csvText = some sync ∧
      sync.ops.length = arr.length - 1 ∧ sync.totalRows = arr.length - 1 := by
  refine ⟨_, importSync_shape schemaHeaders csvText arr harr, ?_, rfl⟩
  simp [List.enum_length]

/-! ## Claim C2: unknown CSV header handling -/

/-- Claim C2 counterexample: the claim asserts that an import whose header row
contains a header missing from the schema aborts before any row is persisted,
with a client-error (4xx) response.  Importing a two-data-row CSV whose second
header is unknown to the schema emits a 503 — a server-error status — and the
loop does not return: both rows are still submitted to the store through
createWithRow. -/
theorem c2_counterexample :
    (importFromCsvSync ["name"] "name,oops\n\"a\",\"x\"\n\"b\",\"y\"").map
      (fun r => (r.responses, r.ops.length, r.totalRows)) =
      some ([⟨503, RespBody.errorMsg
        "The header \"oops\" does not match any properties in the schema"⟩], 2, 2) ∧
    ¬ (400 ≤ 503 ∧ 503 < 500) := by
  exact ⟨rfl, by decide⟩

/-- Claim C2 (amended): for every CSV import whose parsed header row contains
at least one header missing from the schema, the first — and therefore
effective — response is a 503 server-error naming an offending header, and
the import nevertheless continues: one create-or-update operation is still
issued for every data row. -/
theorem c2_amended (schemaHeaders : List String) (csvText : String)
    (arr : List (List (Option String)))
    (harr : csvToArray (trimWs csvText) = some arr)
    (hbad : (arr.headD []).any (fun h => headerUnknown schemaHeaders h) = true) :
    ∃ sync h, importFromCsvSync schemaHeaders csvText = some sync ∧
      headerUnknown schemaHeaders h = true ∧
      sync.responses.head? = some (headerErrResp h) ∧
      sync.ops.length = arr.length - 1 := by
  have hrev : (arr.headD []).reverse.any (fun h => headerUnknown schemaHeaders h) = true := by
    rw [List.any_reverse]
    exact hbad
  obtain ⟨h, hu, hhead⟩ := filterMap_headerErr_head schemaHeaders (arr.headD []).reverse hrev
  refine ⟨_, h, importSync_shape schemaHeaders csvText arr harr, hu, ?_, ?_⟩
  · show (headerCheckResponses schemaHeaders (arr.headD []) ++ _).head? = _
    rw [List.head?_append]
    rw [headerCheckResponses]
    rw [hhead]
    rfl
  · simp [List.enum_length]

/-- Claim C2 witness: the amended theorem applied to the schema with the
single property name and a CSV whose second header is unknown. -/
theorem c2_amended_witness :
    ∃ sync h, importFromCsvSync ["name"] "name,oops\n\"a\",\"x\"\n\"b\",\"y\"" = some sync ∧
      headerUnknown ["name"] h = true ∧
      sync.responses.head? = some (headerErrResp h) ∧
      sync.ops.length =
        ([[some "name", some "oops"], [some "a", some "x"],
          [some "b", some "y"]] : List (List (Option String))).length - 1 :=
  c2_amended ["name"] "name,oops\n\"a\",\"x\"\n\"b\",\"y\""
    [[some "name", some "oops"], [some "a", some "x"], [some "b", some "y"]]
    (by rfl) (by decide)

/-! ## Claim C6: unparseable bracketed cells during import -/

/-- Claim C6 counterexample: the claim asserts that a 3-row CSV whose second
row holds an unparseable JSON array cell yields exactly one failed row and two
successes, the response listing the second row's error.  Instead the import
emits a batch-level 503 "Error parsing array" response synchronously — before
any row settles, so it is the effective response — and still submits all three
rows to the store, the offending cell passed through as its raw string. -/
theorem c6_counterexample :
    importFromCsvSync ["name", "tags"]
        "name,tags\n\"r1\",\"[1]\"\n\"r2\",\"[a]\"\n\"r3\",\"[2]\"" =
      some ⟨[⟨503, RespBody.errorMsg "Error parsing array"⟩],
        [(1, [("name", ImportVal.strVal "r1"),
          ("tags", ImportVal.jsonVal (Json.arr [Json.num "1"]))]),
         (2, [("name", ImportVal.strVal "r2"), ("tags", ImportVal.strVal "[a]")]),
         (3, [("name", ImportVal.strVal "r3"),
          ("tags", ImportVal.jsonVal (Json.arr [Json.num "2"]))])],
        3⟩ := by
  rfl

theorem buildRowObject_cons (h : Option String) (hstail cells : List (Option String)) :
    buildRowObject (h :: hstail) cells =
      if (match h with
        | some s => !(s = "_id") && blacklistRequestAttributes.contains s
        | none => false) then buildRowObject hstail (cells.drop 1)
      else
        if bracketed (match cells.headD none with
          | none => ""
          | some s => s) then
          match jsonParse (match cells.headD none with
            | none => ""
            | some s => s) with
          | some j => ((buildRowObject hstail (cells.drop 1)).1,
              (keyOf h, ImportVal.jsonVal j) :: (buildRowObject hstail (cells.drop 1)).2)
          | none => (⟨503, RespBody.errorMsg "Error parsing array"⟩ ::
                (buildRowObject hstail (cells.drop 1)).1,
              (keyOf h, ImportVal.strVal (match cells.headD none with
                | none => ""
                | some s => s)) :: (buildRowObject hstail (cells.drop 1)).2)
        else ((buildRowObject hstail (cells.drop 1)).1,
          (keyOf h, ImportVal.strVal (match cells.headD none with
            | none => ""
            | some s => s)) :: (buildRowObject hstail (cells.drop 1)).2) := rfl

theorem buildRowObject_tail_mem (h : Option String) (hstail cells : List (Option String))
    (r : Resp) (p : String × ImportVal)
    (hr : r ∈ (buildRowObject hstail (cells.drop 1)).1)
    (hp : p ∈ (buildRowObject hstail (cells.drop 1)).2) :
    r ∈ (buildRowObject (h :: hstail) cells).1 ∧
    p ∈ (buildRowObject (h :: hstail) cells).2 := by
  rw [buildRowObject_cons]
  by_cases hsk : (match h with
    | some s => !(s = "_id") && blacklistRequestAttributes.contains s
    | none => false) = true
  · rw [if_pos hsk]
    exact ⟨hr, hp⟩
  · rw [if_neg hsk]
    by_cases hbre : bracketed (match cells.headD none with
      | none => ""
      | some s => s) = true
    · rw [if_pos hbre]
      cases hjp : jsonParse (match cells.headD none with
        | none => ""
        | some s => s) with
      | some j => exact ⟨hr, List.mem_cons_of_mem _ hp⟩
      | none => exact ⟨List.mem_cons_of_mem _ hr, List.mem_cons_of_mem _ hp⟩
    · rw [if_neg hbre]
      exact ⟨hr, List.mem_cons_of_mem _ hp⟩

/-- Claim C6 (amended): a data row holding a bracketed cell that fails to
parse as JSON makes the row loop emit a batch-level 503 "Error parsing array"
response at build time, while the same row is still submitted with the raw
cell string under its header, and the synchronous phase still issues one
create-or-update operation per data row of the whole batch. -/
theorem c6_amended (csvHeaders cells : List (Option String))
    (hs badCell : String) (j : Nat)
    (hj : csvHeaders[j]? = some (some hs))
    (hskip : hs = "_id" ∨ hs ∉ blacklistRequestAttributes)
    (hcell : cells[j]? = some (some badCell))
    (hbr : bracketed badCell = true) (hparse : jsonParse badCell = none) :
    ((⟨503, RespBody.errorMsg "Error parsing array"⟩ : Resp) ∈
      (buildRowObject csvHeaders cells).1 ∧
      (hs, ImportVal.strVal badCell) ∈ (buildRowObject csvHeaders cells).2) ∧
    (∀ (schemaHeaders : List String) (csvText : String) arr,
      csvToArray (trimWs csvText) = some arr →
      ∃ sync, importFromCsvSync schemaHeaders csvText = some sync ∧
        sync.ops.length = arr.length - 1) := by
  constructor
  · induction j generalizing csvHeaders cells with
    | zero =>
      match csvHeaders with
      | [] => simp at hj
      | h :: hstail =>
        simp at hj
        subst hj
        match cells with
        | [] => simp at hcell
        | c0 :: ctail =>
          simp at hcell
          subst hcell
          rw [buildRowObject_cons]
          have hnot : ¬ ((match (some hs : Option String) with
            | some s => !(s = "_id") && blacklistRequestAttributes.contains s
            | none => false) = true) := by
            show ¬ ((!(hs = "_id") && blacklistRequestAttributes.contains hs) = true)
            cases hskip with
            | inl h1 => simp [h1]
            | inr h2 =>
              simp
              intro _
              exact h2
          rw [if_neg hnot]
          rw [show (match ((some badCell : Option String) :: ctail).headD none with
            | none => ""
            | some s => s) = badCell from rfl]
          rw [if_pos hbr]
          rw [hparse]
          exact ⟨List.mem_cons_self _ _, List.mem_cons_self _ _⟩
    | succ j2 ih =>
      match csvHeaders with
      | [] => simp at hj
      | h :: hstail =>
        have hj2 : hstail[j2]? = some (some hs) := by simpa using hj
        have hcell2 : (cells.drop 1)[j2]? = some (some badCell) := by
          rw [List.getElem?_drop, Nat.add_comm]
          exact hcell
        have hrec := ih hstail (cells.drop 1) hj2 hcell2
        exact buildRowObject_tail_mem h hstail cells _ _ hrec.1 hrec.2
  · intro schemaHeaders csvText arr harr
    obtain ⟨sync, hsync, hops, _⟩ := importSync_ops_length schemaHeaders csvText arr harr
    exact ⟨sync, hsync, hops⟩

/-- Claim C6 witness: the amended theorem applied to the header tags and the
unparseable bracketed cell. -/
theorem c6_amended_witness :
    ((⟨503, RespBody.errorMsg "Error parsing array"⟩ : Resp) ∈
      (buildRowObject [some "tags"] [some "[a]"]).1 ∧
      ("tags", ImportVal.strVal "[a]") ∈ (buildRowObject [some "tags"] [some "[a]"]).2) ∧
    (∀ (schemaHeaders : List String) (csvText : String) arr,
      csvToArray (trimWs csvText) = some arr →
      ∃ sync, importFromCsvSync schemaHeaders csvText = some sync ∧
        sync.ops.length = arr.length - 1) :=
  c6_amended [some "tags"] [some "[a]"] "tags" "[a]" 0 (by rfl)
    (by right; decide) (by rfl) (by rfl) (by rfl)

/-! ## Claim C7: completion policy of the import response -/

theorem settleRun_finished (totalRows : Nat) (events : List (Nat × Option String)) :
    ∀ st, (events.foldl (settleStep totalRows) st).1 = st.1 + events.length := by
  induction events with
  | nil => intro st; simp
  | cons e rest ih =>
    intro st
    rw [List.foldl_cons, ih]
    show (st.1 + 1) + rest.length = st.1 + (rest.length + 1)
    omega

theorem settleRun_errored (totalRows : Nat) (events : List (Nat × Option String)) :
    ∀ st, (events.foldl (settleStep totalRows) st).2.1 =
      st.2.1 ++ settleErrors events := by
  induction events with
  | nil => intro st; simp [settleErrors]
  | cons e rest ih =>
    intro st
    rw [List.foldl_cons, ih]
    rw [show settleErrors (e :: rest) =
      (e.2.map (fun er => (e.1, er))).toList ++ settleErrors rest from by
        rw [settleErrors, settleErrors, List.filterMap_cons]
        cases e.2 <;> simp]
    cases he : e.2 with
    | none => simp [settleStep, he]
    | some er => simp [settleStep, he]

theorem settleRun_responses_empty (totalRows : Nat)
    (events : List (Nat × Option String)) :
    ∀ st, st.2.2 = [] → st.1 + events.length < totalRows →
      (events.foldl (settleStep totalRows) st).2.2 = [] := by
  induction events with
  | nil =>
    intro st h _
    simpa using h
  | cons e rest ih =>
    intro st hresp hlt
    rw [List.foldl_cons]
    apply ih
    · have hne : ¬ (st.1 + 1 = totalRows) := by
        simp only [List.length_cons] at hlt
        omega
      simp [settleStep, returnIfFinished, hne, hresp]
    · show (st.1 + 1) + rest.length < totalRows
      simp only [List.length_cons] at hlt
      omega

theorem errorName_ne_excess (s : String) : ("error" ++ s) ≠ "excess" := by
  intro h
  have hd : ("error" ++ s).data = "excess".data := congrArg String.data h
  rw [show ("error" ++ s).data = 'e' :: 'r' :: 'r' :: 'o' :: 'r' :: s.data from rfl] at hd
  simp at hd

theorem insertSorted_length (p : Nat × String) (l : List (Nat × String)) :
    (insertSorted p l).length = l.length + 1 := by
  induction l with
  | nil => rfl
  | cons q rest ih =>
    rw [insertSorted]
    by_cases hle : p.1 ≤ q.1
    · simp [hle]
    · simp [hle, ih]

theorem sortByKey_length (l : List (Nat × String)) :
    (sortByKey l).length = l.length := by
  induction l with
  | nil => rfl
  | cons p rest ih =>
    show (insertSorted p (sortByKey rest)).length = rest.length + 1
    rw [insertSorted_length, ih]

theorem filter_errorEntries (l : List (Nat × String)) :
    (l.map (fun p => ("error" ++ toString p.1,
      "Unable to add row: " ++ toString p.1 ++ " with error: " ++ p.2))).filter
        (fun e => e.1 ≠ "excess") =
    l.map (fun p => ("error" ++ toString p.1,
      "Unable to add row: " ++ toString p.1 ++ " with error: " ++ p.2)) := by
  apply List.filter_eq_self.mpr
  intro e he
  obtain ⟨p, _, hpe⟩ := List.mem_map.mp he
  rw [← hpe]
  simpa using errorName_ne_excess (toString p.1)

theorem returnIfFinished_shape (totalRows : Nat) (errs : List (Nat × String)) :
    (errs.length = 0 → returnIfFinished totalRows totalRows errs =
      some ⟨204, RespBody.emptyBody⟩) ∧
    (0 < errs.length → ∃ entries,
      returnIfFinished totalRows totalRows errs =
        some ⟨400, RespBody.errorsObj entries⟩ ∧
      (entries.filter (fun e => e.1 ≠ "excess")).length = min errs.length 5 ∧
      (5 < errs.length → entries.getLast? =
        some ("excess", "And " ++ toString (errs.length - 5) ++ " more errors")) ∧
      (errs.length ≤ 5 → entries.length = errs.length)) := by
  have hmaplen : (((sortByKey errs).take 5).map (fun p =>
      ("error" ++ toString p.1,
        "Unable to add row: " ++ toString p.1 ++ " with error: " ++ p.2))).length =
      min errs.length 5 := by
    rw [List.length_map, List.length_take, sortByKey_length]
    omega
  constructor
  · intro h0
    rw [returnIfFinished, if_pos rfl, h0]
    rfl
  · intro hpos
    have hne2 : ¬ (errs.length = 0) := by omega
    by_cases hgt : 5 < errs.length
    · refine ⟨((sortByKey errs).take 5).map (fun p =>
          ("error" ++ toString p.1,
            "Unable to add row: " ++ toString p.1 ++ " with error: " ++ p.2)) ++
          [("excess", "And " ++ toString (errs.length - 5) ++ " more errors")],
          ?_, ?_, ?_, ?_⟩
      · rw [returnIfFinished, if_pos rfl, if_neg hne2]
        simp [hgt]
      · rw [List.filter_append, filter_errorEntries]
        rw [show List.filter (fun e => decide (e.1 ≠ "excess"))
            [("excess", "And " ++ toString (errs.length - 5) ++ " more errors")] = [] from by
          simp]
        rw [List.append_nil, hmaplen]
      · intro _
        exact List.getLast?_concat _
      · intro hle
        omega
    · refine ⟨((sortByKey errs).take 5).map (fun p =>
          ("error" ++ toString p.1,
            "Unable to add row: " ++ toString p.1 ++ " with error: " ++ p.2)),
          ?_, ?_, ?_, ?_⟩
      · rw [returnIfFinished, if_pos rfl, if_neg hne2]
        simp [hgt]
      · rw [filter_errorEntries, hmaplen]
      · intro hcon
        exact absurd hcon hgt
      · intro _
        rw [hmaplen]
        omega

theorem returnIfFinished_fires (t : Nat) (errs : List (Nat × String)) :
    ∃ r, returnIfFinished t t errs = some r := by
  rw [returnIfFinished, if_pos rfl]
  by_cases h0 : errs.length = 0
  · rw [if_pos h0]
    exact ⟨_, rfl⟩
  · rw [if_neg h0]
    exact ⟨_, rfl⟩

/-- Claim C7: the import response is emitted only once the number of settled
rows equals the row count of the parsed CSV minus the header row (the
totalRows target the synchronous phase passes along is exactly that number);
on all-success it is an empty 204, and when k rows fail it is a 400 listing
the first five failures by ascending row index plus an excess entry saying
how many more errors there were, exactly when k exceeds five. -/
theorem c7_completion (totalRows : Nat) (events : List (Nat × Option String))
    (hlen : events.length = totalRows) (hpos : 0 < totalRows) :
    (∀ p q, events = p ++ q → q ≠ [] → (settleRun totalRows p).2.2 = []) ∧
    ((settleErrors events).length = 0 →
      (settleRun totalRows events).2.2 = [⟨204, RespBody.emptyBody⟩]) ∧
    (0 < (settleErrors events).length → ∃ entries,
      (settleRun totalRows events).2.2 = [⟨400, RespBody.errorsObj entries⟩] ∧
      (entries.filter (fun e => e.1 ≠ "excess")).length =
        min (settleErrors events).length 5 ∧
      (5 < (settleErrors events).length → entries.getLast? =
        some ("excess", "And " ++ toString ((settleErrors events).length - 5) ++
          " more errors")) ∧
      ((settleErrors events).length ≤ 5 →
        entries.length = (settleErrors events).length)) ∧
    (∀ (schemaHeaders : List String) (csvText : String) arr,
      csvToArray (trimWs csvText) = some arr →
      ∃ sync, importFromCsvSync schemaHeaders csvText = some sync ∧
        sync.totalRows = arr.length - 1) := by
  have hsplit : ∀ p last, events = p ++ [last] →
      ∃ r, returnIfFinished totalRows totalRows (settleErrors events) = some r ∧
        (settleRun totalRows events).2.2 = [r] := by
    intro p last hpe
    have hplen : p.length + 1 = totalRows := by
      rw [hpe] at hlen
      simpa using hlen
    have hst : settleRun totalRows events =
        settleStep totalRows (settleRun totalRows p) last := by
      rw [hpe, settleRun, List.foldl_append]
      rfl
    have hfin : (settleRun totalRows p).1 = p.length := by
      rw [settleRun, settleRun_finished]
      simp
    have hresp : (settleRun totalRows p).2.2 = [] := by
      rw [settleRun]
      exact settleRun_responses_empty totalRows p (0, [], []) rfl
        (by show 0 + p.length < totalRows; omega)
    have herr : (settleRun totalRows p).2.1 = settleErrors p := by
      rw [settleRun, settleRun_errored]
      rfl
    have herrall : settleErrors events = settleErrors p ++ settleErrors [last] := by
      rw [hpe, settleErrors, settleErrors, settleErrors, List.filterMap_append]
    have herrStep : (match last.2 with
        | some e => (settleRun totalRows p).2.1 ++ [(last.1, e)]
        | none => (settleRun totalRows p).2.1) = settleErrors events := by
      rw [herrall, herr]
      cases hl : last.2 with
      | none =>
        rw [show settleErrors [last] = [] from by
          rw [settleErrors, List.filterMap_cons, hl]
          rfl]
        rw [List.append_nil]
      | some er =>
        rw [show settleErrors [last] = [(last.1, er)] from by
          rw [settleErrors, List.filterMap_cons, hl]
          rfl]
    obtain ⟨r, hr⟩ := returnIfFinished_fires totalRows (settleErrors events)
    refine ⟨r, hr, ?_⟩
    have hval1 : (settleRun totalRows events).2.2 =
        match returnIfFinished totalRows ((settleRun totalRows p).1 + 1)
          (match last.2 with
            | some e => (settleRun totalRows p).2.1 ++ [(last.1, e)]
            | none => (settleRun totalRows p).2.1) with
        | some rr => (settleRun totalRows p).2.2 ++ [rr]
        | none => (settleRun totalRows p).2.2 := by
      rw [hst]
      rfl
    rw [hval1, hfin, hplen, herrStep, hr, hresp]
    rfl
  have hne : events ≠ [] := by
    intro hnil
    rw [hnil] at hlen
    simp at hlen
    omega
  obtain ⟨p, last, hpe⟩ : ∃ p last, events = p ++ [last] := by
    cases hcon : events.reverse with
    | nil =>
      exfalso
      apply hne
      have := congrArg List.reverse hcon
      simpa using this
    | cons a as =>
      refine ⟨as.reverse, a, ?_⟩
      have := congrArg List.reverse hcon
      simpa using this
  obtain ⟨r, hr, hv⟩ := hsplit p last hpe
  refine ⟨?_, ?_, ?_, ?_⟩
  · intro p2 q2 hpq hq2
    have hplen2 : p2.length < totalRows := by
      rw [hpq] at hlen
      rw [List.length_append] at hlen
      have : 0 < q2.length := List.length_pos.mpr hq2
      omega
    rw [settleRun]
    exact settleRun_responses_empty totalRows p2 (0, [], []) rfl
      (by show 0 + p2.length < totalRows; omega)
  · intro h0
    have h204 := (returnIfFinished_shape totalRows (settleErrors events)).1 h0
    have h3 := hr.symm.trans h204
    injection h3 with h4
    rw [hv, h4]
  · intro hposerr
    obtain ⟨entries, heq, hfl, hexc, hle⟩ :=
      (returnIfFinished_shape totalRows (settleErrors events)).2 hposerr
    have h3 := hr.symm.trans heq
    injection h3 with h4
    exact ⟨entries, by rw [hv, h4], hfl, hexc, hle⟩
  · intro schemaHeaders csvText arr harr
    obtain ⟨sync, hsync, _, htot⟩ := importSync_ops_length schemaHeaders csvText arr harr
    exact ⟨sync, hsync, htot⟩

/-- Claim C7 witness: the completion theorem applied to a three-row import in
which the second row fails; no response is observable before the third row
settles, and the final response is a 400 listing the single failure. -/
theorem c7_completion_witness :
    (settleRun 3 [(1, none), (2, some "bad")]).2.2 = [] ∧
    (settleRun 3 [(1, none), (2, some "bad"), (3, none)]).2.2 =
      [⟨400, RespBody.errorsObj
        [("error2", "Unable to add row: 2 with error: bad")]⟩] := by
  have h := c7_completion 3 [(1, none), (2, some "bad"), (3, none)] (by rfl) (by decide)
  constructor
  · exact h.1 [(1, none), (2, some "bad")] [(3, none)] rfl (by decide)
  · rfl

/-! ## Claim C5: relationship filters -/

/-- Claim C5 counterexample: the claimed sub-predicate table maps the
operator name not-equal to an inequality, but the code's branch recognizes
only the space-separated string not equal, so a descriptor carrying the
hyphenated name falls into the otherwise-equals branch: against a related
collection whose single document is named x, the filter owner.name not-equal
x folds that document's identifier into the membership clause instead of
excluding it (an inequality sub-predicate would have produced the empty
membership list). -/
theorem c5_counterexample :
    buildSearchQuery relSchema [⟨"owner.name", "not-equal", "x"⟩] =
      Except.ok [⟨"owner", Cond.inList ["id1"]⟩] ∧
    (Except.ok [⟨"owner", Cond.inList ["id1"]⟩] :
      Except String (List InnerQuery)) ≠
      Except.ok [⟨"owner", Cond.inList []⟩] := by
  constructor
  · rfl
  · intro h
    injection h with h2
    simp at h2

/-- Claim C5 (amended): for a relationship filter owner.attr the compiler
resolves the related collection through the schema map, builds the
sub-predicate on attr (like mapping to a case-insensitive regular expression,
the space-separated operator string not equal mapping to an inequality, and
anything else to equality), collects the identifiers of the matching related
documents and folds them into a membership clause on the parent field; when
exactly one related document matches, the resulting predicate holds for
precisely the documents whose parent field equals that document's
identifier. -/
theorem c5_amended (f ownerF attrF op v refName : String) (cls : AdminSchema) (d : Row)
    (hsplit : splitOnChar '.' f = [ownerF, attrF])
    (href : cls.schemaRef ownerF = some refName)
    (subC : Cond)
    (hsub : subC = (if op = "like" then Cond.opCond MongoOp.regex (QVal.regexI v)
      else if op = "not equal" then Cond.opCond MongoOp.ne (QVal.str v)
      else Cond.opCond MongoOp.eq (QVal.str v)))
    (hmatch : (cls.models refName).filter
      (fun dd => evalCond subC (getField dd attrF)) = [d]) :
    buildSearchQuery cls [⟨f, op, v⟩] =
      Except.ok [⟨ownerF, Cond.inList [idString d]⟩] ∧
    (∀ doc : Row, evalQuery [⟨ownerF, Cond.inList [idString d]⟩] doc = true ↔
      getField doc ownerF = CellValue.str (idString d)) := by
  constructor
  · rw [buildSearchQuery]
    simp only [List.reverse_cons, List.reverse_nil, List.nil_append, List.filter_cons,
      List.filter_nil, hsplit]
    simp only [List.length_cons, List.length_nil]
    norm_num
    simp only [List.mapM.loop, hsplit, List.head?_cons, Option.getD_some]
    rw [href]
    simp only [List.getElem?_cons_succ, List.getElem?_cons_zero, Option.getD_some,
      ← hsub, hmatch]
    simp [buildQuery]
    rfl
  · intro doc
    rw [evalQuery]
    simp only [List.all_cons, List.all_nil, Bool.and_true]
    rw [evalInner]
    cases hv : getField doc ownerF with
    | str s => simp [evalCond]
    | undef => simp [evalCond]
    | null => simp [evalCond]
    | num n => simp [evalCond]
    | boolean b => simp [evalCond]
    | obj j => simp [evalCond]
    | date ms => simp [evalCond]

/-- Claim C5 witness: the amended theorem applied to the like filter Jo
against a collection in which exactly Joanna matches. -/
theorem c5_amended_witness :
    buildSearchQuery relSchemaJo [⟨"owner.name", "like", "Jo"⟩] =
      Except.ok [⟨"owner", Cond.inList
        [idString [("_id", CellValue.str "u1"), ("name", CellValue.str "Joanna")]]⟩] ∧
    (∀ doc : Row, evalQuery [⟨"owner", Cond.inList
        [idString [("_id", CellValue.str "u1"), ("name", CellValue.str "Joanna")]]⟩]
        doc = true ↔
      getField doc "owner" = CellValue.str
        (idString [("_id", CellValue.str "u1"), ("name", CellValue.str "Joanna")])) :=
  c5_amended "owner.name" "owner" "name" "like" "Jo" "UserClass" relSchemaJo
    [("_id", CellValue.str "u1"), ("name", CellValue.str "Joanna")]
    (by rfl) (by rfl) (Cond.opCond MongoOp.regex (QVal.regexI "Jo")) (by decide)
    (by decide)

/-! ## Round-trip lemmas for the CSV codec -/

theorem stringMk_data (s : String) : String.mk s.data = s := rfl

theorem escapeQuotes_ne_nil (s : List Char) (h : s ≠ []) : escapeQuotes s ≠ [] := by
  match s with
  | [] => exact absurd rfl h
  | c :: r =>
    rw [escapeQuotes]
    by_cases hc : c = '"' <;> simp [hc]

theorem unescape_escape (s : List Char) : unescapeQuotes (escapeQuotes s) = s := by
  induction s with
  | nil => rfl
  | cons c r ih =>
    rw [escapeQuotes]
    by_cases hc : c = '"'
    · rw [if_pos hc]
      rw [show unescapeQuotes ('"' :: '"' :: escapeQuotes r) =
        '"' :: unescapeQuotes (escapeQuotes r) from by
          rw [unescapeQuotes]
          simp]
      rw [ih, hc]
    · rw [if_neg hc]
      cases hr : escapeQuotes r with
      | nil =>
        have hrnil : r = [] := by
          by_contra hne
          exact escapeQuotes_ne_nil r hne hr
        subst hrnil
        rfl
      | cons e es =>
        rw [show unescapeQuotes (c :: e :: es) = c :: unescapeQuotes (e :: es) from by
          rw [unescapeQuotes]
          rw [if_neg hc]]
        rw [← hr, ih]

theorem quotedRest_escaped (s : List Char) : ∀ rest : List Char, rest.head? ≠ some '"' →
    quotedRest (escapeQuotes s ++ '"' :: rest) = some (escapeQuotes s, rest) := by
  induction s with
  | nil =>
    intro rest hhd
    rw [show escapeQuotes [] = [] from rfl, List.nil_append]
    exact quotedRest_close rest hhd
  | cons c r ih =>
    intro rest hhd
    rw [escapeQuotes]
    by_cases hc : c = '"'
    · rw [if_pos hc]
      rw [show ('"' :: '"' :: escapeQuotes r) ++ '"' :: rest =
        '"' :: '"' :: (escapeQuotes r ++ '"' :: rest) from by simp]
      rw [quotedRest_esc]
      rw [ih rest hhd]
    · rw [if_neg hc]
      rw [show (c :: escapeQuotes r) ++ '"' :: rest =
        c :: (escapeQuotes r ++ '"' :: rest) from rfl]
      rw [quotedRest_cons c _ hc]
      rw [ih rest hhd]

theorem matchField_quotedCell (s : String) (rest : List Char)
    (hne : s ≠ "") (hhd : rest.head? ≠ some '"') :
    matchField ('"' :: (escapeQuotes s.data ++ '"' :: rest)) = (some s, rest) := by
  rw [matchField_quote]
  rw [quotedRest_escaped s.data rest hhd]
  have hd : s.data ≠ [] := by
    intro hvd
    apply hne
    rw [← stringMk_data s, hvd]
  have hnn : ¬ (escapeQuotes s.data).isEmpty = true := by
    have := escapeQuotes_ne_nil s.data hd
    simpa using this
  show (if (escapeQuotes s.data).isEmpty = true then ((none : Option String), rest)
    else (some (String.mk (unescapeQuotes (escapeQuotes s.data))), rest)) = (some s, rest)
  rw [if_neg hnn, unescape_escape, stringMk_data]

theorem replaceApos_id (cs : List Char) (h : ∀ c ∈ cs, c ≠ '\'') :
    replaceApos cs = cs := by
  induction cs with
  | nil => rfl
  | cons c r ih =>
    rw [replaceApos]
    rw [if_neg (h c (List.mem_cons_self c r))]
    rw [ih (fun x hx => h x (List.mem_cons_of_mem c hx))]

theorem stripQuote_sublist : ∀ (cs : List Char), ∀ x ∈ stripQuote cs, x ∈ cs := by
  intro cs
  match cs with
  | [] => intro x hx; exact hx
  | c :: r =>
    intro x hx
    rw [show stripQuote (c :: r) = if quoteChar c then r else c :: r from rfl] at hx
    by_cases hq : quoteChar c = true
    · rw [if_pos hq] at hx
      exact List.mem_cons_of_mem c hx
    · rw [if_neg hq] at hx
      exact hx

theorem matchColonPat_none (cs : List Char) (h : ∀ c ∈ cs, c ≠ ':') :
    matchColonPat cs = none := by
  simp only [matchColonPat]
  by_cases hw : ((stripQuote cs).takeWhile wordChar).isEmpty = true
  · rw [if_pos hw]
  · rw [if_neg hw]
    cases hc3 : stripQuote ((stripQuote cs).dropWhile wordChar) with
    | nil => rfl
    | cons c r =>
      by_cases hcol : c = ':'
      · exfalso
        apply h c _ hcol
        have h1 : c ∈ stripQuote ((stripQuote cs).dropWhile wordChar) := by
          rw [hc3]
          exact List.mem_cons_self c r
        have h2 := stripQuote_sublist _ _ h1
        have h3 := (List.dropWhile_sublist wordChar).mem h2
        exact stripQuote_sublist _ _ h3
      · split
        · rename_i rr heq
          injection heq with h1 h2
          exact absurd h1 hcol
        · rfl

theorem replaceColonPatAux_id : ∀ (fuel : Nat) (cs : List Char),
    (∀ c ∈ cs, c ≠ ':') → replaceColonPatAux fuel cs = cs := by
  intro fuel
  induction fuel with
  | zero => intro cs h; rfl
  | succ n ih =>
    intro cs h
    match cs with
    | [] => rfl
    | c :: rest =>
      rw [replaceColonPatAux]
      rw [matchColonPat_none (c :: rest) h]
      rw [ih rest (fun x hx => h x (List.mem_cons_of_mem c hx))]

theorem replaceColonPat_id (cs : List Char) (h : ∀ c ∈ cs, c ≠ ':') :
    replaceColonPat cs = cs :=
  replaceColonPatAux_id cs.length cs h

theorem encodeCellV1_scalar (v : CellValue) (hs : scalarCell v) :
    encodeCellV1 v = quotedCell (jsString v) := by
  match v, hs with
  | .str s, _ => rfl
  | .num n, _ => rfl
  | .boolean b, _ => rfl

theorem joinComma_cons2 (a b : List Char) (rest : List (List Char)) :
    joinComma (a :: b :: rest) = a ++ ',' :: joinComma (b :: rest) := rfl

theorem commaCells_cons_encLine (c : String) (cs : List String) :
    commaCells (c :: cs) = ',' :: encLine (c :: cs) := rfl

theorem lineEq (row : Row) : ∀ (headers : List String),
    (∀ h ∈ headers, scalarCell (getField row h)) →
    joinComma (headers.map (fun h => encodeCellV1 (getField row h))) =
      encLine (headers.map (fun h => jsString (getField row h))) := by
  intro headers
  induction headers with
  | nil => intro _; rfl
  | cons h0 hs ih =>
    intro hcells
    cases hs with
    | nil =>
      show joinComma [encodeCellV1 (getField row h0)] =
        encLine [jsString (getField row h0)]
      rw [show joinComma [encodeCellV1 (getField row h0)] =
        encodeCellV1 (getField row h0) from rfl]
      rw [encodeCellV1_scalar _ (hcells h0 (List.mem_cons_self h0 []))]
      show quotedCell (jsString (getField row h0)) =
        quotedCell (jsString (getField row h0)) ++ commaCells []
      rw [show commaCells ([] : List String) = [] from rfl, List.append_nil]
    | cons h1 hs2 =>
      have ih2 := ih (fun h hh => hcells h (List.mem_cons_of_mem h0 hh))
      simp only [List.map_cons]
      rw [joinComma_cons2]
      rw [encodeCellV1_scalar _ (hcells h0 (List.mem_cons_self h0 _))]
      rw [show encLine (jsString (getField row h0) :: jsString (getField row h1) ::
          hs2.map (fun h => jsString (getField row h))) =
        quotedCell (jsString (getField row h0)) ++
          commaCells (jsString (getField row h1) ::
            hs2.map (fun h => jsString (getField row h))) from rfl]
      rw [commaCells_cons_encLine]
      simp only [List.map_cons] at ih2
      rw [ih2]

theorem headerBytes_cons (h0 : String) (hs : List String) :
    headerBytes (h0 :: hs) = h0.data ++ commaHeaders hs := by
  induction hs generalizing h0 with
  | nil =>
    show joinComma [h0.data] = h0.data ++ commaHeaders []
    rw [show commaHeaders [] = [] from rfl, List.append_nil]
    rfl
  | cons h1 hs2 ih =>
    show joinComma (h0.data :: h1.data :: hs2.map String.data) =
      h0.data ++ commaHeaders (h1 :: hs2)
    rw [joinComma_cons2]
    rw [show joinComma (h1.data :: hs2.map String.data) = headerBytes (h1 :: hs2) from rfl]
    rw [ih h1]
    rw [show commaHeaders (h1 :: hs2) = (',' :: h1.data) ++ commaHeaders hs2 from rfl]
    simp

theorem flatten_regroup (ls : List (List Char)) :
    '\n' :: (ls.map (fun l => l ++ ['\n'])).flatten =
      (ls.map (fun l => '\n' :: l)).flatten ++ ['\n'] := by
  induction ls with
  | nil => rfl
  | cons a ls ih =>
    simp only [List.map_cons, List.flatten_cons]
    rw [show '\n' :: ((a ++ ['\n']) ++ (ls.map (fun l => l ++ ['\n'])).flatten) =
      ('\n' :: a) ++ ('\n' :: (ls.map (fun l => l ++ ['\n'])).flatten) from by simp]
    rw [ih]
    simp

theorem convertToCsv_raw (result : List Row) (headers : List String)
    (hcells : ∀ row ∈ result, ∀ h ∈ headers, scalarCell (getField row h)) :
    HelperV1.convertToCsv result headers =
      String.mk (replaceColonPat (replaceApos (headerBytes headers ++
        linesBytes (result.map (fun row =>
          headers.map (fun h => jsString (getField row h))))))) := by
  simp only [HelperV1.convertToCsv]
  have hlines : result.map (fun row =>
      joinComma (headers.map (fun h => encodeCellV1 (getField row h))) ++ ['\n']) =
    (result.map (fun row => headers.map (fun h => jsString (getField row h)))).map
      (fun l => encLine l ++ ['\n']) := by
    rw [List.map_map]
    apply List.map_congr_left
    intro row hrow
    simp only [Function.comp]
    rw [lineEq row headers (hcells row hrow)]
  rw [hlines]
  have hmm1 : ((result.map (fun row => headers.map (fun h => jsString (getField row h)))).map
      encLine).map (fun l => l ++ ['\n']) =
    (result.map (fun row => headers.map (fun h => jsString (getField row h)))).map
      (fun l => encLine l ++ ['\n']) := by
    rw [List.map_map]
    rfl
  have hmm2 : ((result.map (fun row => headers.map (fun h => jsString (getField row h)))).map
      encLine).map (fun l => '\n' :: l) =
    (result.map (fun row => headers.map (fun h => jsString (getField row h)))).map
      (fun cells => '\n' :: encLine cells) := by
    rw [List.map_map]
    rfl
  have htail : '\n' :: ((result.map (fun row =>
      headers.map (fun h => jsString (getField row h)))).map
        (fun l => encLine l ++ ['\n'])).flatten =
    linesBytes (result.map (fun row => headers.map (fun h => jsString (getField row h)))) := by
    rw [← hmm1, flatten_regroup, hmm2, linesBytes]
  rw [← htail]
  rfl

theorem mem_escapeQuotes (c : Char) (s : List Char) (h : c ∈ escapeQuotes s) :
    c ∈ s ∨ c = '"' := by
  induction s with
  | nil => exact absurd h (List.not_mem_nil c)
  | cons a r ih =>
    rw [escapeQuotes] at h
    by_cases ha : a = '"'
    · rw [if_pos ha] at h
      rcases List.mem_cons.mp h with hc | h2
      · exact Or.inr hc
      · rcases List.mem_cons.mp h2 with hc | h3
        · exact Or.inr hc
        · rcases ih h3 with hm | hq
          · exact Or.inl (List.mem_cons_of_mem a hm)
          · exact Or.inr hq
    · rw [if_neg ha] at h
      rcases List.mem_cons.mp h with hc | h2
      · exact Or.inl (hc ▸ List.mem_cons_self a r)
      · rcases ih h2 with hm | hq
        · exact Or.inl (List.mem_cons_of_mem a hm)
        · exact Or.inr hq

theorem mem_quotedCell (c : Char) (s : String) (h : c ∈ quotedCell s) :
    c ∈ s.data ∨ c = '"' := by
  rcases List.mem_cons.mp h with hc | h2
  · exact Or.inr hc
  · rcases List.mem_append.mp h2 with h3 | h4
    · exact mem_escapeQuotes c s.data h3
    · exact Or.inr (List.mem_singleton.mp h4)

theorem mem_commaCells (c : Char) (cells : List String) (h : c ∈ commaCells cells) :
    c = ',' ∨ c = '"' ∨ ∃ s ∈ cells, c ∈ s.data := by
  rw [commaCells] at h
  rcases List.mem_flatten.mp h with ⟨l, hl, hcl⟩
  rcases List.mem_map.mp hl with ⟨t, ht, rfl⟩
  rcases List.mem_cons.mp hcl with hc | h2
  · exact Or.inl hc
  · rcases mem_quotedCell c t h2 with hm | hq
    · exact Or.inr (Or.inr ⟨t, ht, hm⟩)
    · exact Or.inr (Or.inl hq)

theorem mem_encLine (c : Char) (cells : List String) (h : c ∈ encLine cells) :
    c = ',' ∨ c = '"' ∨ ∃ s ∈ cells, c ∈ s.data := by
  match cells with
  | [] => exact absurd h (List.not_mem_nil c)
  | t :: rest =>
    have h0 : c ∈ quotedCell t ++ commaCells rest := h
    rcases List.mem_append.mp h0 with h1 | h2
    · rcases mem_quotedCell c t h1 with hm | hq
      · exact Or.inr (Or.inr ⟨t, List.mem_cons_self t rest, hm⟩)
      · exact Or.inr (Or.inl hq)
    · rcases mem_commaCells c rest h2 with hx | hx | hx
      · exact Or.inl hx
      · exact Or.inr (Or.inl hx)
      · obtain ⟨t2, ht2, hm⟩ := hx
        exact Or.inr (Or.inr ⟨t2, List.mem_cons_of_mem t ht2, hm⟩)

theorem mem_linesBytes (c : Char) (rows : List (List String)) (h : c ∈ linesBytes rows) :
    c = '\n' ∨ c = ',' ∨ c = '"' ∨ ∃ r ∈ rows, ∃ s ∈ r, c ∈ s.data := by
  rw [linesBytes] at h
  rcases List.mem_append.mp h with h1 | h2
  · rcases List.mem_flatten.mp h1 with ⟨l, hl, hcl⟩
    rcases List.mem_map.mp hl with ⟨r, hr, rfl⟩
    rcases List.mem_cons.mp hcl with hc | h3
    · exact Or.inl hc
    · rcases mem_encLine c r h3 with hx | hx | hx
      · exact Or.inr (Or.inl hx)
      · exact Or.inr (Or.inr (Or.inl hx))
      · obtain ⟨t, ht, hm⟩ := hx
        exact Or.inr (Or.inr (Or.inr ⟨r, hr, t, ht, hm⟩))
  · exact Or.inl (List.mem_singleton.mp h2)

theorem mem_joinComma (c : Char) : ∀ (ls : List (List Char)), c ∈ joinComma ls →
    c = ',' ∨ ∃ l ∈ ls, c ∈ l := by
  intro ls
  match ls with
  | [] => intro h; exact absurd h (List.not_mem_nil c)
  | [l] => intro h; exact Or.inr ⟨l, List.mem_cons_self l [], h⟩
  | l :: l2 :: rest =>
    intro h
    rw [joinComma_cons2] at h
    rcases List.mem_append.mp h with h1 | h2
    · exact Or.inr ⟨l, List.mem_cons_self l _, h1⟩
    · rcases List.mem_cons.mp h2 with hc | h3
      · exact Or.inl hc
      · rcases mem_joinComma c (l2 :: rest) h3 with hx | hx
        · exact Or.inl hx
        · obtain ⟨l3, hl3, hm⟩ := hx
          exact Or.inr ⟨l3, List.mem_cons_of_mem l hl3, hm⟩

theorem mem_headerBytes (c : Char) (headers : List String) (h : c ∈ headerBytes headers) :
    c = ',' ∨ ∃ t ∈ headers, c ∈ t.data := by
  rcases mem_joinComma c (headers.map String.data) h with hx | hx
  · exact Or.inl hx
  · obtain ⟨l, hl, hm⟩ := hx
    rcases List.mem_map.mp hl with ⟨t, ht, rfl⟩
    exact Or.inr ⟨t, ht, hm⟩

theorem body_no_apos_colon (headers : List String) (result : List Row)
    (hok : ∀ h ∈ headers, headerOkP h)
    (hcells : ∀ row ∈ result, ∀ h ∈ headers, cellOkP (getField row h)) :
    ∀ c ∈ headerBytes headers ++
      linesBytes (result.map (fun row => headers.map (fun h => jsString (getField row h)))),
      c ≠ '\'' ∧ c ≠ ':' := by
  intro c hc
  have hsafe : safeChar c = true ∨ c = ',' ∨ c = '\n' ∨ c = '"' := by
    rcases List.mem_append.mp hc with h1 | h2
    · rcases mem_headerBytes c headers h1 with hx | hx
      · exact Or.inr (Or.inl hx)
      · obtain ⟨hh, hmem, hm⟩ := hx
        exact Or.inl ((hok hh hmem).2 c hm).1
    · rcases mem_linesBytes c _ h2 with hx | hx | hx | hx
      · exact Or.inr (Or.inr (Or.inl hx))
      · exact Or.inr (Or.inl hx)
      · exact Or.inr (Or.inr (Or.inr hx))
      · obtain ⟨r, hr, t, ht, hm⟩ := hx
        rcases List.mem_map.mp hr with ⟨row, hrow, rfl⟩
        rcases List.mem_map.mp ht with ⟨hh, hmem, rfl⟩
        exact Or.inl ((hcells row hrow hh hmem).2.2 c hm)
  rcases hsafe with hx | hx | hx | hx
  · constructor
    · intro he
      rw [he] at hx
      exact absurd hx (by decide)
    · intro he
      rw [he] at hx
      exact absurd hx (by decide)
  · subst hx; exact (by decide)
  · subst hx; exact (by decide)
  · subst hx; exact (by decide)

theorem convertToCsv_structured (result : List Row) (headers : List String)
    (hok : ∀ h ∈ headers, headerOkP h)
    (hcells : ∀ row ∈ result, ∀ h ∈ headers, cellOkP (getField row h)) :
    HelperV1.convertToCsv result headers =
      String.mk (headerBytes headers ++
        linesBytes (result.map (fun row =>
          headers.map (fun h => jsString (getField row h))))) := by
  rw [convertToCsv_raw result headers (fun row hr h hh => (hcells row hr h hh).1)]
  have hchars := body_no_apos_colon headers result hok hcells
  rw [replaceApos_id _ (fun c hc => (hchars c hc).1)]
  rw [replaceColonPat_id _ (fun c hc => (hchars c hc).2)]

theorem headerChar_field (c : Char) (h1 : safeChar c = true) (h2 : c ≠ '"') :
    fieldChar c = true := by
  simp [safeChar] at h1
  obtain ⟨⟨⟨⟨ha, hb⟩, hc⟩, _⟩, _⟩ := h1
  simp [fieldChar, sepChar, h2, ha, hb, hc]

theorem safeChar_not_sep (c : Char) (h1 : safeChar c = true) :
    c ≠ ',' ∧ c ≠ '\r' ∧ c ≠ '\n' := by
  simp [safeChar] at h1
  obtain ⟨⟨⟨⟨ha, hb⟩, hc⟩, _⟩, _⟩ := h1
  exact ⟨ha, hb, hc⟩

theorem takeWhile_all_append (p : Char → Bool) : ∀ (xs ys : List Char),
    (∀ x ∈ xs, p x = true) → (∀ y, ys.head? = some y → p y = false) →
    (xs ++ ys).takeWhile p = xs ∧ (xs ++ ys).dropWhile p = ys := by
  intro xs
  induction xs with
  | nil =>
    intro ys hall hhd
    cases ys with
    | nil => exact ⟨rfl, rfl⟩
    | cons y ys2 =>
      have hy := hhd y rfl
      refine ⟨?_, ?_⟩
      · rw [List.nil_append]
        simp [List.takeWhile_cons, hy]
      · rw [List.nil_append]
        simp [List.dropWhile_cons, hy]
  | cons x xs ih =>
    intro ys hall hhd
    have hx := hall x (List.mem_cons_self x xs)
    obtain ⟨ht, hd⟩ := ih ys (fun a ha => hall a (List.mem_cons_of_mem x ha)) hhd
    refine ⟨?_, ?_⟩
    · rw [List.cons_append]
      simp [List.takeWhile_cons, hx, ht]
    · rw [List.cons_append]
      simp [List.dropWhile_cons, hx, hd]

theorem matchField_header (h : String) (rest : List Char)
    (hok : headerOkP h)
    (hrest : ∀ y, rest.head? = some y → fieldChar y = false) :
    matchField (h.data ++ rest) = (some h, rest) := by
  obtain ⟨hne, hchars⟩ := hok
  have hd0 : h.data ≠ [] := fun hv => hne (by rw [← stringMk_data h, hv])
  have hall : ∀ x ∈ h.data, fieldChar x = true := fun x hx =>
    headerChar_field x (hchars x hx).1 (hchars x hx).2
  obtain ⟨htake, hdrop⟩ := takeWhile_all_append fieldChar h.data rest hall hrest
  cases hh : h.data with
  | nil => exact absurd hh hd0
  | cons c0 t =>
    have hc0 : c0 ≠ '"' := (hchars c0 (by rw [hh]; exact List.mem_cons_self c0 t)).2
    rw [show ((c0 :: t) ++ rest : List Char) = c0 :: (t ++ rest) from rfl]
    rw [matchField_notQuote c0 _ hc0]
    rw [show (c0 :: (t ++ rest) : List Char) = h.data ++ rest from by rw [hh]; rfl]
    rw [htake, hdrop, stringMk_data]

theorem linesBytes_head : ∀ (rows : List (List String)), (linesBytes rows).head? = some '\n' := by
  intro rows
  cases rows with
  | nil => rfl
  | cons r rows2 => rfl

theorem commaCells_append_head (cells : List String) (rest : List Char)
    (hr : rest.head? = some '\n') :
    (commaCells cells ++ rest).head? ≠ some '"' := by
  cases cells with
  | nil =>
    rw [show commaCells [] = [] from rfl, List.nil_append, hr]
    intro hcontra
    exact absurd (Option.some.inj hcontra) (by decide)
  | cons t cs =>
    intro hcontra
    rw [show (commaCells (t :: cs) ++ rest).head? = some ',' from rfl] at hcontra
    exact absurd (Option.some.inj hcontra) (by decide)

theorem run_cellsTail : ∀ (cells : List String) (rest : List Char)
    (acc : List (List (Option String))) (row : List (Option String))
    (out : List (List (Option String))),
    (∀ t ∈ cells, t ≠ "") →
    rest.head? = some '\n' →
    runsTo rest false (acc ++ [row ++ cells.map some]) out →
    runsTo (commaCells cells ++ rest) false (acc ++ [row]) out := by
  intro cells
  induction cells with
  | nil =>
    intro rest acc row out hne hhd hrun
    rw [show commaCells [] = [] from rfl, List.nil_append]
    rw [show (row ++ List.map some ([] : List String) : List (Option String)) = row from by simp]
      at hrun
    exact hrun
  | cons t cs ih =>
    intro rest acc row out hne hhd hrun
    have hshape : commaCells (t :: cs) ++ rest =
        ',' :: '"' :: (escapeQuotes t.data ++ '"' :: (commaCells cs ++ rest)) := by
      show ((',' :: quotedCell t) ++ commaCells cs) ++ rest = _
      rw [quotedCell]
      simp
    rw [hshape]
    have hfield := matchField_quotedCell t (commaCells cs ++ rest)
      (hne t (List.mem_cons_self t cs))
      (commaCells_append_head cs rest hhd)
    have hexec : execMatch
        (',' :: '"' :: (escapeQuotes t.data ++ '"' :: (commaCells cs ++ rest))) false =
        some (Sep.comma, some t, commaCells cs ++ rest) := by
      have h1 : execMatch
          (',' :: '"' :: (escapeQuotes t.data ++ '"' :: (commaCells cs ++ rest))) false =
          some (Sep.comma,
            (matchField ('"' :: (escapeQuotes t.data ++ '"' :: (commaCells cs ++ rest)))).1,
            (matchField ('"' :: (escapeQuotes t.data ++ '"' :: (commaCells cs ++ rest)))).2) := by
        rw [execMatch, matchSep_comma]
      rw [h1, hfield]
    have hlt : (commaCells cs ++ rest).length <
        (',' :: '"' :: (escapeQuotes t.data ++ '"' :: (commaCells cs ++ rest))).length := by
      simp only [List.length_cons, List.length_append]
      omega
    apply runsTo_step _ _ Sep.comma (some t) (commaCells cs ++ rest) _ _ hexec hlt
    rw [if_neg (show ¬ (Sep.comma = Sep.newline) from by decide)]
    rw [pushLast_append]
    apply ih rest acc (row ++ [some t]) out (fun u hu => hne u (List.mem_cons_of_mem t hu)) hhd
    rw [show ((row ++ [some t]) ++ cs.map some : List (Option String)) =
      row ++ (t :: cs).map some from by simp]
    exact hrun

theorem run_headersTail : ∀ (hs : List String) (rest : List Char)
    (acc : List (List (Option String))) (row : List (Option String))
    (out : List (List (Option String))),
    (∀ h ∈ hs, headerOkP h) →
    rest.head? = some '\n' →
    runsTo rest false (acc ++ [row ++ hs.map some]) out →
    runsTo (commaHeaders hs ++ rest) false (acc ++ [row]) out := by
  intro hs
  induction hs with
  | nil =>
    intro rest acc row out hok hhd hrun
    rw [show commaHeaders [] = [] from rfl, List.nil_append]
    rw [show (row ++ List.map some ([] : List String) : List (Option String)) = row from by simp]
      at hrun
    exact hrun
  | cons h hs2 ih =>
    intro rest acc row out hok hhd hrun
    have hshape : commaHeaders (h :: hs2) ++ rest =
        ',' :: (h.data ++ (commaHeaders hs2 ++ rest)) := by
      show ((',' :: h.data) ++ commaHeaders hs2) ++ rest = _
      simp
    rw [hshape]
    have hrhd : ∀ y, (commaHeaders hs2 ++ rest).head? = some y → fieldChar y = false := by
      cases hs2 with
      | nil =>
        intro y hy
        have h0 : commaHeaders ([] : List String) ++ rest = rest := by
          rw [show commaHeaders ([] : List String) = [] from rfl, List.nil_append]
        rw [h0, hhd] at hy
        cases Option.some.inj hy
        decide
      | cons h2 hs3 =>
        intro y hy
        have h0 : (commaHeaders (h2 :: hs3) ++ rest).head? = some ',' := rfl
        rw [h0] at hy
        cases Option.some.inj hy
        decide
    have hfield := matchField_header h (commaHeaders hs2 ++ rest)
      (hok h (List.mem_cons_self h hs2)) hrhd
    have hexec : execMatch (',' :: (h.data ++ (commaHeaders hs2 ++ rest))) false =
        some (Sep.comma, some h, commaHeaders hs2 ++ rest) := by
      have h1 : execMatch (',' :: (h.data ++ (commaHeaders hs2 ++ rest))) false =
          some (Sep.comma,
            (matchField (h.data ++ (commaHeaders hs2 ++ rest))).1,
            (matchField (h.data ++ (commaHeaders hs2 ++ rest))).2) := by
        rw [execMatch, matchSep_comma]
      rw [h1, hfield]
    have hlt : (commaHeaders hs2 ++ rest).length <
        (',' :: (h.data ++ (commaHeaders hs2 ++ rest))).length := by
      simp only [List.length_cons, List.length_append]
      omega
    apply runsTo_step _ _ Sep.comma (some h) (commaHeaders hs2 ++ rest) _ _ hexec hlt
    rw [if_neg (show ¬ (Sep.comma = Sep.newline) from by decide)]
    rw [pushLast_append]
    apply ih rest acc (row ++ [some h]) out (fun u hu => hok u (List.mem_cons_of_mem h hu)) hhd
    rw [show ((row ++ [some h]) ++ hs2.map some : List (Option String)) =
      row ++ (h :: hs2).map some from by simp]
    exact hrun

theorem run_lines : ∀ (rows : List (List String)) (acc : List (List (Option String)))
    (cur : List (Option String)),
    (∀ r ∈ rows, ∀ t ∈ r, t ≠ "") →
    (∀ r ∈ rows, r ≠ []) →
    runsTo (linesBytes rows) false (acc ++ [cur])
      ((acc ++ [cur]) ++ rows.map (fun r => r.map some) ++ [[some ""]]) := by
  intro rows
  induction rows with
  | nil =>
    intro acc cur hne hrne
    have hexec : execMatch ['\n'] false = some (Sep.newline, some "", []) := by
      have h1 : execMatch ['\n'] false =
          some (Sep.newline, (matchField ([] : List Char)).1,
            (matchField ([] : List Char)).2) := by
        rw [execMatch, matchSep_lf]
      rw [h1, matchField_nil]
    rw [show linesBytes [] = ['\n'] from rfl]
    apply runsTo_step _ _ Sep.newline (some "") [] _ _ hexec (by decide)
    rw [if_pos rfl]
    rw [pushLast_append]
    rw [show (([] : List (Option String)) ++ [some ""]) = [some ""] from rfl]
    have hout : (acc ++ [cur]) ++ ([] : List (List String)).map (fun r => r.map some) ++
        [[some ""]] = (acc ++ [cur]) ++ [[some ""]] := by simp
    rw [hout]
    exact runsTo_done [] false _ rfl
  | cons r rows2 ih =>
    intro acc cur hne hrne
    cases hrr : r with
    | nil => exact absurd hrr (hrne r (List.mem_cons_self r rows2))
    | cons c0 cs0 =>
      have hsplit : linesBytes ((c0 :: cs0) :: rows2) =
          '\n' :: ('"' :: (escapeQuotes c0.data ++ '"' :: (commaCells cs0 ++ linesBytes rows2))) := by
        show (('\n' :: encLine (c0 :: cs0)) ++
            (rows2.map (fun cells => '\n' :: encLine cells)).flatten) ++ ['\n'] =
          '\n' :: ('"' :: (escapeQuotes c0.data ++ '"' :: (commaCells cs0 ++ linesBytes rows2)))
        rw [show encLine (c0 :: cs0) = quotedCell c0 ++ commaCells cs0 from rfl, quotedCell]
        rw [show linesBytes rows2 =
          (rows2.map (fun cells => '\n' :: encLine cells)).flatten ++ ['\n'] from rfl]
        simp
      rw [hsplit]
      have hc0ne : c0 ≠ "" := hne r (List.mem_cons_self r rows2) c0
        (by rw [hrr]; exact List.mem_cons_self c0 cs0)
      have hfield := matchField_quotedCell c0 (commaCells cs0 ++ linesBytes rows2) hc0ne
        (commaCells_append_head cs0 (linesBytes rows2) (linesBytes_head rows2))
      have hexec : execMatch
          ('\n' :: ('"' :: (escapeQuotes c0.data ++ '"' :: (commaCells cs0 ++ linesBytes rows2))))
          false = some (Sep.newline, some c0, commaCells cs0 ++ linesBytes rows2) := by
        have h1 : execMatch
            ('\n' :: ('"' :: (escapeQuotes c0.data ++ '"' ::
              (commaCells cs0 ++ linesBytes rows2)))) false =
            some (Sep.newline,
              (matchField ('"' :: (escapeQuotes c0.data ++ '"' ::
                (commaCells cs0 ++ linesBytes rows2)))).1,
              (matchField ('"' :: (escapeQuotes c0.data ++ '"' ::
                (commaCells cs0 ++ linesBytes rows2)))).2) := by
          rw [execMatch, matchSep_lf]
        rw [h1, hfield]
      have hlt : (commaCells cs0 ++ linesBytes rows2).length <
          ('\n' :: ('"' :: (escapeQuotes c0.data ++ '"' ::
            (commaCells cs0 ++ linesBytes rows2)))).length := by
        simp only [List.length_cons, List.length_append]
        omega
      apply runsTo_step _ _ Sep.newline (some c0) (commaCells cs0 ++ linesBytes rows2) _ _
        hexec hlt
      rw [if_pos rfl]
      rw [pushLast_append]
      rw [show (([] : List (Option String)) ++ [some c0]) = [some c0] from rfl]
      apply run_cellsTail cs0 (linesBytes rows2) (acc ++ [cur]) [some c0] _
        (fun u hu => hne r (List.mem_cons_self r rows2) u
          (by rw [hrr]; exact List.mem_cons_of_mem c0 hu))
        (linesBytes_head rows2)
      rw [show (([some c0] ++ cs0.map some : List (Option String))) =
        (c0 :: cs0).map some from rfl]
      have hrec := ih (acc ++ [cur]) ((c0 :: cs0).map some)
        (fun r2 h2 => hne r2 (List.mem_cons_of_mem r h2))
        (fun r2 h2 => hrne r2 (List.mem_cons_of_mem r h2))
      have hout : ((acc ++ [cur]) ++ [(c0 :: cs0).map some]) ++
          rows2.map (fun r => r.map some) ++ [[some ""]] =
        (acc ++ [cur]) ++ ((c0 :: cs0) :: rows2).map (fun r => r.map some) ++ [[some ""]] := by
        simp
      rw [← hout]
      exact hrec

theorem run_full (h0 : String) (hs : List String) (rows : List (List String))
    (hok : ∀ h ∈ h0 :: hs, headerOkP h)
    (hrne : ∀ r ∈ rows, r ≠ []) (hcne : ∀ r ∈ rows, ∀ t ∈ r, t ≠ "") :
    runsTo (headerBytes (h0 :: hs) ++ linesBytes rows) true [[]]
      (((h0 :: hs).map some :: rows.map (fun r => r.map some)) ++ [[some ""]]) := by
  rw [headerBytes_cons, List.append_assoc]
  obtain ⟨hne0, hchars0⟩ := hok h0 (List.mem_cons_self h0 hs)
  have hd0 : h0.data ≠ [] := fun hv => hne0 (by rw [← stringMk_data h0, hv])
  have hrhd : ∀ y, (commaHeaders hs ++ linesBytes rows).head? = some y → fieldChar y = false := by
    cases hs with
    | nil =>
      intro y hy
      have h0' : commaHeaders ([] : List String) ++ linesBytes rows = linesBytes rows := by
        rw [show commaHeaders ([] : List String) = [] from rfl, List.nil_append]
      rw [h0', linesBytes_head rows] at hy
      cases Option.some.inj hy
      decide
    | cons h1 hs2 =>
      intro y hy
      have h0' : (commaHeaders (h1 :: hs2) ++ linesBytes rows).head? = some ',' := rfl
      rw [h0'] at hy
      cases Option.some.inj hy
      decide
  have hfield := matchField_header h0 (commaHeaders hs ++ linesBytes rows)
    ⟨hne0, hchars0⟩ hrhd
  cases hd : h0.data with
  | nil => exact absurd hd hd0
  | cons c0 t0 =>
    have hc0 := hchars0 c0 (by rw [hd]; exact List.mem_cons_self c0 t0)
    obtain ⟨hns1, hns2, hns3⟩ := safeChar_not_sep c0 hc0.1
    have hexec : execMatch (h0.data ++ (commaHeaders hs ++ linesBytes rows)) true =
        some (Sep.start, some h0, commaHeaders hs ++ linesBytes rows) := by
      have h1 : execMatch (h0.data ++ (commaHeaders hs ++ linesBytes rows)) true =
          some (Sep.start,
            (matchField (h0.data ++ (commaHeaders hs ++ linesBytes rows))).1,
            (matchField (h0.data ++ (commaHeaders hs ++ linesBytes rows))).2) := by
        rw [hd]
        rw [show (c0 :: t0) ++ (commaHeaders hs ++ linesBytes rows) =
          c0 :: (t0 ++ (commaHeaders hs ++ linesBytes rows)) from rfl]
        rw [execMatch, matchSep_other c0 _ true hns1 hns2 hns3]
        rfl
      rw [h1, hfield]
    have hlt : (commaHeaders hs ++ linesBytes rows).length <
        (h0.data ++ (commaHeaders hs ++ linesBytes rows)).length := by
      rw [hd]
      simp only [List.length_cons, List.length_append]
      omega
    rw [← hd]
    apply runsTo_step _ _ Sep.start (some h0) (commaHeaders hs ++ linesBytes rows) _ _
      hexec hlt
    rw [if_neg (show ¬ (Sep.start = Sep.newline) from by decide)]
    rw [show pushLast [[]] (some h0) = [] ++ [[some h0]] from rfl]
    apply run_headersTail hs (linesBytes rows) [] [some h0] _
      (fun u hu => hok u (List.mem_cons_of_mem h0 hu)) (linesBytes_head rows)
    rw [show (([some h0] ++ hs.map some : List (Option String))) = (h0 :: hs).map some from rfl]
    have hrec := run_lines rows [] ((h0 :: hs).map some) hcne hrne
    have hout : ([] ++ [(h0 :: hs).map some]) ++ rows.map (fun r => r.map some) ++ [[some ""]] =
        ((h0 :: hs).map some :: rows.map (fun r => r.map some)) ++ [[some ""]] := by simp
    rw [← hout]
    exact hrec

/-- Claim C3 counterexample: encoding the one-header, one-row table h/a and
decoding it yields the header row, the data row, and an extra trailing row
holding the empty string (the decoder turns the final line delimiter into one
more row), so the result is not the header row followed by exactly the
original rows; and the delimiter-free scalar cell don-apostrophe-t survives
with its apostrophe replaced by a double quote, because the first helper
applies the apostrophe replacement to the whole CSV text. -/
theorem c3_counterexample :
    csvToArray (HelperV1.convertToCsv [[("h", CellValue.str "a")]] ["h"]) =
      some [[some "h"], [some "a"], [some ""]] ∧
    csvToArray (HelperV1.convertToCsv [[("h", CellValue.str "a")]] ["h"]) ≠
      some [[some "h"], [some "a"]] ∧
    csvToArray (HelperV1.convertToCsv [[("h", CellValue.str "don\x27t")]] ["h"]) =
      some [[some "h"], [some "don\"t"], [some ""]] :=
  ⟨rfl, by decide, rfl⟩

/-- Claim C3 (amended): for a non-empty header list whose headers are
non-empty and free of delimiters, quotes, apostrophes and colons, and rows of
scalar cells whose string forms are non-empty and free of delimiters,
apostrophes and colons, decoding the first helper's encoding returns the
header row, then the original rows cell for cell (each cell as its string
form), then one extra trailing row holding the empty string. -/
theorem c3_amended (headers : List String) (result : List Row)
    (hne : headers ≠ []) (hok : ∀ h ∈ headers, headerOkP h)
    (hcells : ∀ row ∈ result, ∀ h ∈ headers, cellOkP (getField row h)) :
    csvToArray (HelperV1.convertToCsv result headers) =
      some ((headers.map some :: result.map (fun row =>
        headers.map (fun h => some (jsString (getField row h))))) ++ [[some ""]]) := by
  rw [convertToCsv_structured result headers hok hcells]
  apply runsTo_csvToArray
  cases headers with
  | nil => exact absurd rfl hne
  | cons h0 hs =>
    show runsTo (headerBytes (h0 :: hs) ++ linesBytes (result.map (fun row =>
        (h0 :: hs).map (fun h => jsString (getField row h))))) true [[]] _
    have hmaps : (result.map (fun row =>
        (h0 :: hs).map (fun h => jsString (getField row h)))).map
          (fun r => r.map some) =
      result.map (fun row => (h0 :: hs).map (fun h => some (jsString (getField row h)))) := by
      rw [List.map_map]
      apply List.map_congr_left
      intro row _
      show ((h0 :: hs).map (fun h => jsString (getField row h))).map some = _
      rw [List.map_map]
      rfl
    rw [← hmaps]
    exact run_full h0 hs
      (result.map (fun row => (h0 :: hs).map (fun h => jsString (getField row h))))
      hok
      (by
        intro r hr
        rcases List.mem_map.mp hr with ⟨row, _, rfl⟩
        simp)
      (by
        intro r hr t ht
        rcases List.mem_map.mp hr with ⟨row, hrow, rfl⟩
        rcases List.mem_map.mp ht with ⟨h, hh, rfl⟩
        exact (hcells row hrow h hh).2.1)

/-- Claim C3 witness: the amended theorem applied to the one-header,
one-row table h/a. -/
theorem c3_amended_witness :
    csvToArray (HelperV1.convertToCsv [[("h", CellValue.str "a")]] ["h"]) =
      some ((["h"].map some :: [[("h", CellValue.str "a")]].map (fun row =>
        ["h"].map (fun h => some (jsString (getField row h))))) ++ [[some ""]]) :=
  c3_amended ["h"] [[("h", CellValue.str "a")]]
    (by decide)
    (by
      intro h hh
      cases List.mem_singleton.mp hh
      exact ⟨by decide, by decide⟩)
    (by
      intro row hrow h hh
      cases List.mem_singleton.mp hrow
      cases List.mem_singleton.mp hh
      exact ⟨trivial, by decide, by decide⟩)

end SnapAdmin
